import Mathlib

/-!
Verification development for the catalog-harvesting core of the repository
(source file: scrape_melbet_games.py).  The Python code is shallowly embedded:
JSON values become the inductive `JVal`, `dict.get` becomes `pyGet` (Python
returns the same `None` both for a missing key and for a JSON null value),
Python truthiness becomes `pyTruthy`, the `int(...)` builtin becomes
`pyIntOfStr` / `_to_int`, and the stateful pagination loops become fuel-indexed
recursive functions over an abstract transport returning `Except`.
-/

/-- A JSON value, as produced by json.loads in the source. Floats are not
modelled: none of the analysed code paths nor the upstream payloads in the
specification involve them. -/
inductive JVal where
  | null : JVal
  | bool : Bool → JVal
  | int : Int → JVal
  | str : String → JVal
  | arr : List JVal → JVal
  | obj : List (String × JVal) → JVal

/-- Raw JSON-object field access: `some v` when the key is present (first
occurrence), `none` when the receiver is not an object or lacks the key. -/
def jget (v : JVal) (k : String) : Option JVal :=
  match v with
  | .obj kvs => kvs.lookup k
  | _ => none

/-- Python `d.get(k)`: returns the same `None` for a missing key and for a
JSON null value, so both collapse to `none`. -/
def pyGet (v : JVal) (k : String) : Option JVal :=
  match jget v k with
  | some .null => none
  | o => o

/-- Python truthiness of a JSON value. -/
def pyTruthy : JVal → Bool
  | .null => false
  | .bool b => b
  | .int n => n != 0
  | .str s => s ≠ ""
  | .arr xs => !xs.isEmpty
  | .obj kvs => !kvs.isEmpty

/-- Single-quote character, written numerically to keep it out of string
literals. -/
def pyQuote : String := String.mk [Char.ofNat 39]

mutual
/-- Python `repr` of a JSON value (used through `pyStr` for `str(...)`).
String escaping inside `repr` of nested strings is not reproduced; only
scalar values reach `str(...)` in the analysed paths. -/
def pyRepr : JVal → String
  | .null => "None"
  | .bool true => "True"
  | .bool false => "False"
  | .int n => toString n
  | .str s => pyQuote ++ s ++ pyQuote
  | .arr xs => "[" ++ pyReprList xs ++ "]"
  | .obj kvs => "\x7b" ++ pyReprObj kvs ++ "\x7d"

def pyReprList : List JVal → String
  | [] => ""
  | [x] => pyRepr x
  | x :: xs => pyRepr x ++ ", " ++ pyReprList xs

def pyReprObj : List (String × JVal) → String
  | [] => ""
  | [kv] => pyQuote ++ kv.1 ++ pyQuote ++ ": " ++ pyRepr kv.2
  | kv :: kvs => pyQuote ++ kv.1 ++ pyQuote ++ ": " ++ pyRepr kv.2 ++ ", " ++ pyReprObj kvs
end

/-- Python `str(...)` of a JSON value: identity on strings, `repr` otherwise. -/
def pyStr (v : JVal) : String :=
  match v with
  | .str s => s
  | _ => pyRepr v

/-- Python whitespace, as stripped by `int(...)`. -/
def isPySpace (c : Char) : Bool :=
  c = ' ' || c = '\t' || c = '\n' || c = '\r' || c = Char.ofNat 11 || c = Char.ofNat 12

/-- Strip Python whitespace from both ends of a character list. -/
def pyStripChars (cs : List Char) : List Char :=
  ((cs.dropWhile isPySpace).reverse.dropWhile isPySpace).reverse

/-- Digit run to a natural number. -/
def digitsToNat (cs : List Char) : Nat :=
  cs.foldl (fun a c => a * 10 + (c.toNat - 48)) 0

/-- Python `int(s)` on a string: strip whitespace, optional sign, then a
nonempty digit run (digit-group underscores are not modelled). -/
def pyIntOfStr (s : String) : Option Int :=
  let t := pyStripChars s.data
  let core := match t with
    | '-' :: rest => rest
    | '+' :: rest => rest
    | rest => rest
  if core ≠ [] ∧ core.all Char.isDigit then
    some (if t.headD ' ' = '-' then -(digitsToNat core : Int) else (digitsToNat core : Int))
  else
    none

/-- `_to_int` (source lines 47-53): best-effort integer coercion, `none` on
failure.  Python `int(True) = 1`, `int(False) = 0`; lists and dicts fail. -/
def _to_int : Option JVal → Option Int
  | none => none
  | some .null => none
  | some (.bool b) => some (if b then 1 else 0)
  | some (.int n) => some n
  | some (.str s) => pyIntOfStr s
  | some (.arr _) => none
  | some (.obj _) => none

/-- Python `s.rstrip("/")`. -/
def rstripSlash (s : String) : String :=
  String.mk (s.data.reverse.dropWhile (fun c => c = '/')).reverse

/-- The catalog entity (`Game` dataclass, source lines 29-44). -/
structure Game where
  id : Int
  name : String
  brand_id : Option Int
  brand_name : Option String
  provider_id : Option Int
  product_id : Option Int
  categories : List Int
  has_demo : Option Bool
  is_new : Option Bool
  is_promo : Option Bool
  is_hot : Option Bool
  img : Option String
  img_url : Option String
  game_url : Option String
deriving DecidableEq

/-- One entry of the `games` list, as handled by the loop body of
`_parse_games` (source lines 791-823): non-dict entries and entries without
an integer-coercible `id` are dropped. `base_url` is assumed already
slash-stripped by the caller (as in the source). -/
def parseGameEntry (base_url lang : String) (g : JVal) : Option Game :=
  match g with
  | .obj _ =>
    match _to_int (pyGet g "id") with
    | none => none
    | some game_id =>
      let imgv := pyGet g "img"
      let img_url : Option String :=
        match imgv with
        | some (.str s) => if s.startsWith "/" then some (base_url ++ s) else none
        | _ => none
      let categories : List Int :=
        match pyGet g "categories" with
        | some (.arr xs) => xs.filterMap (fun x => _to_int (some x))
        | _ => []
      some
        { id := game_id
          name :=
            match pyGet g "name" with
            | some v => if pyTruthy v then pyStr v else ""
            | none => ""
          brand_id := _to_int (pyGet g "brandId")
          brand_name := (pyGet g "brandName").map pyStr
          provider_id := _to_int (pyGet g "provider_id")
          product_id := _to_int (pyGet g "product_id")
          categories := categories
          has_demo := (pyGet g "has_demo").map pyTruthy
          is_new := (pyGet g "is_new").map pyTruthy
          is_promo := (pyGet g "is_promo").map pyTruthy
          is_hot := (pyGet g "is_hot").map pyTruthy
          img := imgv.map pyStr
          img_url := img_url
          game_url := some (base_url ++ "/" ++ lang ++ "/slots?game=" ++ toString game_id) }
  | _ => none

/-- `_parse_games` (source lines 784-825): extract the `games` list of a page
payload and parse its entries; any payload without a list-valued `games` key
yields `[]`.  (A truthy non-dict payload would raise in Python; such payloads
are outside the JSON page model used here.) -/
def _parse_games (api_json : JVal) (base_url lang : String) : List Game :=
  match jget api_json "games" with
  | some (.arr gs) => gs.filterMap (parseGameEntry (rstripSlash base_url) lang)
  | _ => []

/-- Inner loop of `_dedupe` with the running `seen` identity set (modelled as
a list consulted by membership). -/
def dedupeGo (seen : List Int) : List Game → List Game
  | [] => []
  | g :: rest =>
    if g.id ∈ seen then dedupeGo seen rest
    else g :: dedupeGo (g.id :: seen) rest

/-- `_dedupe` (source lines 828-836): first-seen-wins deduplication by `id`,
preserving order of first occurrences. -/
def _dedupe (games : List Game) : List Game :=
  dedupeGo [] games

/-- `_cap_reached` (source lines 62-63): a cap of zero or less is unbounded. -/
def _cap_reached (current : Int) (max_games : Int) : Bool :=
  max_games > 0 && current ≥ max_games


/-- Hexadecimal digit (uppercase), as used by Python percent-encoding. -/
def hexDigit (n : Nat) : Char :=
  if n < 10 then Char.ofNat (48 + n) else Char.ofNat (55 + n)

/-- Percent-encode one byte, uppercase hex (Python urllib quoting). -/
def percentByte (b : UInt8) : List Char :=
  ['%', hexDigit (b.toNat / 16), hexDigit (b.toNat % 16)]

/-- Python `urllib.parse.quote_plus` on one character: ASCII alphanumerics and
`_ . - ~` pass through, space becomes `+`, anything else is percent-encoded
per UTF-8 byte. -/
def quotePlusChar (c : Char) : List Char :=
  if c.isAlphanum || c = '_' || c = '.' || c = '-' || c = '~' then [c]
  else if c = ' ' then ['+']
  else (String.toUTF8 (String.mk [c])).toList.flatMap percentByte

/-- Python `urllib.parse.quote_plus` on a string. -/
def quotePlus (s : String) : String :=
  String.mk (s.data.flatMap quotePlusChar)

/-- Python `"&".join(...)`. -/
def joinAmp : List String → String
  | [] => ""
  | [x] => x
  | x :: xs => x ++ "&" ++ joinAmp xs

/-- Python `",".join(...)`. -/
def joinComma : List String → String
  | [] => ""
  | [x] => x
  | x :: xs => x ++ "," ++ joinComma xs

/-- Python `urllib.parse.urlencode` on an ordered mapping whose values have
already been rendered with `str` (the call sites pass strings and ints only;
ints are rendered with `toString` at the call site). -/
def urlencode (params : List (String × String)) : String :=
  joinAmp (params.map (fun kv => quotePlus kv.1 ++ "=" ++ quotePlus kv.2))

/-- `_build_api_url` (source lines 56-59): right-strip slashes from the base,
drop `None`-valued parameters, urlencode the rest; append `?query` only when
the query string is nonempty. -/
def _build_api_url (base_url path : String) (params : List (String × Option String)) : String :=
  let base := rstripSlash base_url
  let qs := urlencode (params.filterMap (fun kv => kv.2.map (fun v => (kv.1, v))))
  if qs = "" then base ++ path else base ++ path ++ "?" ++ qs

/-- The `brandIds` parameter value (source line 921): comma-joined ids, empty
when the brand list is `None` or empty (Python truthiness). -/
def brandIdsParam (brand_ids : Option (List Int)) : String :=
  match brand_ids with
  | some (b :: bs) => joinComma ((b :: bs).map toString)
  | _ => ""

/-- The page-request parameter dict built by the walker (source lines
920-928): `categoriesId` is the string of the category id, or the empty
string when no category filter is active; `brandIds` joins the brand ids
with commas, empty when the brand list is absent or empty. -/
def pageParams (brand_ids : Option (List Int)) (cid : Option Int)
    (limit offset : Int) (title_search : Option String) : List (String × Option String) :=
  [("brandIds", some (brandIdsParam brand_ids)),
   ("categoriesId", some (match cid with | some c => toString c | none => "")),
   ("limit", some (toString limit)),
   ("offset", some (toString offset)),
   ("titleSearch", some (title_search.getD "")),
   ("withoutCdn", some "true"),
   ("filterType", some "or")]

/-- URL of one page request (source line 929). -/
def pageUrl (base_url : String) (brand_ids : Option (List Int)) (cid : Option Int)
    (limit offset : Int) (title_search : Option String) : String :=
  _build_api_url base_url "/web-api/tpmodels/games/1"
    (pageParams brand_ids cid limit offset title_search)

/-- URL of the options request (source lines 772-777). -/
def optionsUrl (base_url : String) : String :=
  _build_api_url base_url "/web-api/tpmodels/options/1"
    [("optionsKeys", some "brands,subcategories,banners")]

/-- Split a character list at a separator character. -/
def splitOnChar (sep : Char) : List Char → List (List Char)
  | [] => [[]]
  | c :: rest =>
    let r := splitOnChar sep rest
    if c = sep then [] :: r
    else match r with
      | [] => [[c]]
      | p :: ps => (c :: p) :: ps

/-- The keys appearing in the query string of a URL (the part after the first
question mark, split on ampersands, each pair read up to the first equals
sign). -/
def urlQueryKeys (url : String) : List String :=
  match splitOnChar '?' url.data with
  | _ :: q :: _ =>
    (splitOnChar '&' q).map (fun p => String.mk (p.takeWhile (fun c => c ≠ '=')))
  | _ => []

/-- Observable behaviour of one retry-wrapped fetch: the returned or raised
value, the number of attempts made, and the sequence of backoff sleeps (in
seconds, as exact rationals) in the order they are performed. -/
structure RetryTrace where
  result : Except String JVal
  attempts : Nat
  sleeps : List ℚ

/-- Exhaustion message raised by both retry engines (source lines 719, 757). -/
def fetchFailMsg (url last_err : String) : String :=
  "Failed to fetch JSON: " ++ url ++ " (" ++ last_err ++ ")"

/-- `_http_get_json_with_retries` (source lines 703-719), from attempt index
`attempt` on.  `get_text` gives the outcome of the raw HTTP text fetch on
each attempt (`Except.error` for a raised transport exception), and `decode`
abstracts `json.loads` (`Except.error` for a raised decode exception).  An
empty body is recorded as `empty_response text_len=0` and retried; after a
failed attempt with index below `retries` the engine sleeps
`backoff_s * 2 ^ attempt` and retries; once attempt `retries` fails, the
exhaustion error carrying the last cause is raised. -/
def httpRetryGo (get_text : Nat → Except String String) (decode : String → Except String JVal)
    (url : String) (retries : Nat) (backoff_s : ℚ) (attempt : Nat) : RetryTrace :=
  let attemptResult : Except String JVal :=
    match get_text attempt with
    | .error e => .error e
    | .ok text =>
      if text = "" then .error ("empty_response text_len=" ++ toString text.length)
      else
        match decode text with
        | .error e => .error e
        | .ok v => .ok v
  match attemptResult with
  | .ok v => { result := .ok v, attempts := 1, sleeps := [] }
  | .error e =>
    if _h : attempt < retries then
      let t := httpRetryGo get_text decode url retries backoff_s (attempt + 1)
      { result := t.result, attempts := t.attempts + 1,
        sleeps := backoff_s * 2 ^ attempt :: t.sleeps }
    else
      { result := .error (fetchFailMsg url e), attempts := 1, sleeps := [] }
termination_by retries - attempt

/-- `_http_get_json_with_retries`, starting at the first attempt. -/
def _http_get_json_with_retries (get_text : Nat → Except String String)
    (decode : String → Except String JVal) (url : String) (retries : Nat)
    (backoff_s : ℚ) : RetryTrace :=
  httpRetryGo get_text decode url retries backoff_s 0

/-- `_get_json_with_retries` (source lines 741-757), the browser-proxied
engine, from attempt index `attempt` on.  `page_fetch` gives the
`(status, text)` payload of the in-page fetch on each attempt
(`Except.error` for a raised exception); the caller-side success check is
`status == 200` and nonempty text, otherwise the attempt fails with a
`status=... text_len=...` cause; decode failures are retried like any other
failure.  Backoff and exhaustion behaviour match the HTTP engine. -/
def pwRetryGo (page_fetch : Nat → Except String (Int × String))
    (decode : String → Except String JVal) (url : String) (retries : Nat)
    (backoff_s : ℚ) (attempt : Nat) : RetryTrace :=
  let attemptResult : Except String JVal :=
    match page_fetch attempt with
    | .error e => .error e
    | .ok payload =>
      if payload.1 = 200 ∧ payload.2 ≠ "" then
        match decode payload.2 with
        | .error e => .error e
        | .ok v => .ok v
      else .error ("status=" ++ toString payload.1 ++ " text_len=" ++ toString payload.2.length)
  match attemptResult with
  | .ok v => { result := .ok v, attempts := 1, sleeps := [] }
  | .error e =>
    if _h : attempt < retries then
      let t := pwRetryGo page_fetch decode url retries backoff_s (attempt + 1)
      { result := t.result, attempts := t.attempts + 1,
        sleeps := backoff_s * 2 ^ attempt :: t.sleeps }
    else
      { result := .error (fetchFailMsg url e), attempts := 1, sleeps := [] }
termination_by retries - attempt

/-- `_get_json_with_retries`, starting at the first attempt. -/
def _get_json_with_retries (page_fetch : Nat → Except String (Int × String))
    (decode : String → Except String JVal) (url : String) (retries : Nat)
    (backoff_s : ℚ) : RetryTrace :=
  pwRetryGo page_fetch decode url retries backoff_s 0

/-- Outcome of a fuel-indexed walk: `diverge` when the fuel bound was too
small to finish (the Python loop would still be running), `fail` when an
exhaustion error propagates out (the Python function raises), `ok` otherwise. -/
inductive WalkOut (α : Type) where
  | diverge : WalkOut α
  | fail : String → WalkOut α
  | ok : α → WalkOut α
deriving DecidableEq

/-- Per-category `while` loop of `scrape_games_http` (source lines 918-941).
`fetch off` abstracts one retry-wrapped page request at the given offset for
this category (`Except.error` when the retry budget is exhausted and the
exhaustion error is raised).  Returns the updated collection together with
the number of page requests issued.  The inter-page sleep has no observable
effect on the result and is not modelled. -/
def catLoop (fetch : Int → Except String JVal) (base_url lang : String)
    (limit max_games : Int) : Nat → Int → List Game → WalkOut (List Game × Nat)
  | 0, _, _ => .diverge
  | fuel + 1, offset, collected =>
    if _cap_reached collected.length max_games then .ok (collected, 0)
    else
      match fetch offset with
      | .error e => .fail e
      | .ok api_json =>
        let page_games := _parse_games api_json base_url lang
        if page_games.isEmpty then .ok (collected, 1)
        else
          match catLoop fetch base_url lang limit max_games fuel (offset + limit)
              (_dedupe (collected ++ page_games)) with
          | .diverge => .diverge
          | .fail e => .fail e
          | .ok (c, r) => .ok (c, r + 1)

/-- Outer `for cid in resolved_category_ids` loop of `scrape_games_http`
(source lines 917-941), threading the accumulated collection through the
categories and summing issued page requests. -/
def walkCats (fetch : Option Int → Int → Except String JVal) (base_url lang : String)
    (limit max_games : Int) (fuel : Nat) :
    List (Option Int) → List Game → WalkOut (List Game × Nat)
  | [], collected => .ok (collected, 0)
  | cid :: rest, collected =>
    match catLoop (fetch cid) base_url lang limit max_games fuel 0 collected with
    | .diverge => .diverge
    | .fail e => .fail e
    | .ok (c, r) =>
      match walkCats fetch base_url lang limit max_games fuel rest c with
      | .diverge => .diverge
      | .fail e => .fail e
      | .ok (c2, r2) => .ok (c2, r + r2)

/-- `_get_options_http` (source lines 772-781): the options request through
the retry engine (abstracted to its `Except` outcome); a successful non-dict
response is replaced by the empty dict. -/
def _get_options_http (options_fetch : Except String JVal) : Except String JVal :=
  match options_fetch with
  | .error e => .error e
  | .ok j =>
    match j with
    | .obj _ => .ok j
    | _ => .ok (.obj [])

/-- The `subcategories` list of the options payload (source lines 899-901):
empty when the key is absent or its value is not a list. -/
def subcategoriesOf (options : JVal) : List JVal :=
  match jget options "subcategories" with
  | some (.arr xs) => xs
  | _ => []

/-- One iteration of the id-collecting loop (source lines 903-908): `some cid`
exactly when the entry is a dict whose `id` coerces to a positive integer
other than the sentinels 998 and 999. -/
def validCatId (s : JVal) : Option Int :=
  match s with
  | .obj _ =>
    match _to_int (pyGet s "id") with
    | some cid => if cid > 0 ∧ cid ≠ 998 ∧ cid ≠ 999 then some cid else none
    | none => none
  | _ => none

/-- Insert into an ascending list, keeping it ascending. -/
def insertSorted (x : Int) : List Int → List Int
  | [] => [x]
  | y :: ys => if x ≤ y then x :: y :: ys else y :: insertSorted x ys

/-- Ascending insertion sort (a model of Python `sorted` on integers). -/
def insertionSort : List Int → List Int
  | [] => []
  | x :: xs => insertSorted x (insertionSort xs)

/-- Keep the first occurrence of each integer (a model of the set built by
Python `set(ids)`, which holds each value once). -/
def removeDupIntsGo (seen : List Int) : List Int → List Int
  | [] => []
  | x :: xs =>
    if x ∈ seen then removeDupIntsGo seen xs else x :: removeDupIntsGo (x :: seen) xs

/-- Resolve-all category extraction (source lines 899-909): keep the valid
category ids of the `subcategories` entries and return them sorted and
deduplicated (Python `sorted(set(ids))`). -/
def _resolve_all_ids (options : JVal) : List Int :=
  insertionSort (removeDupIntsGo [] ((subcategoriesOf options).filterMap validCatId))

/-- Category resolution of `scrape_games_http` (source lines 896-913):
all-categories mode filters the options payload; an explicit nonempty
category list is used as given (Python truthiness: `None` and `[]` both fall
through); otherwise the single no-filter marker `none` is used. -/
def resolveCategoryIds (options : JVal) (category_ids : Option (List Int))
    (all_categories : Bool) : List (Option Int) :=
  if all_categories then (_resolve_all_ids options).map some
  else
    match category_ids with
    | some (c :: cs) => (c :: cs).map some
    | _ => [none]

/-- Final cap slice (source line 945): `collected` unchanged for an unbounded
cap, else its first `max_games` elements. -/
def finalSlice (max_games : Int) (collected : List Game) : List Game :=
  if max_games ≤ 0 then collected else collected.take max_games.toNat

/-- `scrape_games_http` (source lines 880-945) over an abstract transport:
`fetch cid off` is the retry-wrapped JSON outcome of the page request for
category `cid` at offset `off`, and `options_fetch` that of the options
request (consulted only in all-categories mode).  A propagating exhaustion
error aborts the whole run (`WalkOut.fail`), discarding the collection. -/
def scrape_games_http (fetch : Option Int → Int → Except String JVal)
    (options_fetch : Except String JVal) (base_url lang : String)
    (category_ids : Option (List Int)) (all_categories : Bool)
    (limit max_games : Int) (fuel : Nat) : WalkOut (List Game × Nat) :=
  let base_url := rstripSlash base_url
  if all_categories then
    match _get_options_http options_fetch with
    | .error e => .fail e
    | .ok options =>
      match walkCats fetch base_url lang limit max_games fuel
          (resolveCategoryIds options none true) [] with
      | .ok (c, r) => .ok (finalSlice max_games c, r)
      | w => w
  else
    match walkCats fetch base_url lang limit max_games fuel
        (resolveCategoryIds (.obj []) category_ids false) [] with
    | .ok (c, r) => .ok (finalSlice max_games c, r)
    | w => w

/-- Per-category `while` loop of the browser-driven `scrape_games` (source
lines 992-1016), transcribed separately from its own source; `fetch off`
abstracts one `_get_json_with_retries` page request.  The body mirrors the
HTTP walker line for line, which claim C8 turns into a theorem. -/
def catLoopPW (fetch : Int → Except String JVal) (base_url lang : String)
    (limit max_games : Int) : Nat → Int → List Game → WalkOut (List Game × Nat)
  | 0, _, _ => .diverge
  | fuel + 1, offset, collected =>
    if _cap_reached collected.length max_games then .ok (collected, 0)
    else
      match fetch offset with
      | .error e => .fail e
      | .ok api_json =>
        let page_games := _parse_games api_json base_url lang
        if page_games.isEmpty then .ok (collected, 1)
        else
          match catLoopPW fetch base_url lang limit max_games fuel (offset + limit)
              (_dedupe (collected ++ page_games)) with
          | .diverge => .diverge
          | .fail e => .fail e
          | .ok (c, r) => .ok (c, r + 1)

/-- Outer category loop of the browser-driven `scrape_games` (source lines
991-1016). -/
def walkCatsPW (fetch : Option Int → Int → Except String JVal) (base_url lang : String)
    (limit max_games : Int) (fuel : Nat) :
    List (Option Int) → List Game → WalkOut (List Game × Nat)
  | [], collected => .ok (collected, 0)
  | cid :: rest, collected =>
    match catLoopPW (fetch cid) base_url lang limit max_games fuel 0 collected with
    | .diverge => .diverge
    | .fail e => .fail e
    | .ok (c, r) =>
      match walkCatsPW fetch base_url lang limit max_games fuel rest c with
      | .diverge => .diverge
      | .fail e => .fail e
      | .ok (c2, r2) => .ok (c2, r + r2)

/-- `_get_options` (source lines 760-769), browser side: same non-dict guard
as `_get_options_http`. -/
def _get_options (options_fetch : Except String JVal) : Except String JVal :=
  match options_fetch with
  | .error e => .error e
  | .ok j =>
    match j with
    | .obj _ => .ok j
    | _ => .ok (.obj [])

/-- `scrape_games` (source lines 948-1022), the browser-driven scrape, over
an abstract transport; category resolution (source lines 971-988) repeats
the HTTP-side logic verbatim.  Browser/session setup (page.goto) is a
one-time side effect with no bearing on the returned collection and is not
modelled. -/
def scrape_games (fetch : Option Int → Int → Except String JVal)
    (options_fetch : Except String JVal) (base_url lang : String)
    (category_ids : Option (List Int)) (all_categories : Bool)
    (limit max_games : Int) (fuel : Nat) : WalkOut (List Game × Nat) :=
  let base_url := rstripSlash base_url
  if all_categories then
    match _get_options options_fetch with
    | .error e => .fail e
    | .ok options =>
      match walkCatsPW fetch base_url lang limit max_games fuel
          (resolveCategoryIds options none true) [] with
      | .ok (c, r) => .ok (finalSlice max_games c, r)
      | w => w
  else
    match walkCatsPW fetch base_url lang limit max_games fuel
        (resolveCategoryIds (.obj []) category_ids false) [] with
    | .ok (c, r) => .ok (finalSlice max_games c, r)
    | w => w

/-- One logical request of a run: the options request or a page request for a
category at an offset. -/
inductive Req where
  | options : Req
  | page : Option Int → Int → Req
deriving DecidableEq

/-- The HTTP scrape with its own retry engine plugged in: `get_text r k` is
the raw text outcome of attempt `k` of request `r` (source lines 930 and
898 route page and options requests through `_http_get_json_with_retries`). -/
def scrape_games_http_impl (get_text : Req → Nat → Except String String)
    (decode : String → Except String JVal) (base_url lang : String)
    (category_ids : Option (List Int)) (all_categories : Bool)
    (brand_ids : Option (List Int)) (title_search : Option String)
    (limit max_games : Int) (retries : Nat) (backoff_s : ℚ)
    (fuel : Nat) : WalkOut (List Game × Nat) :=
  scrape_games_http
    (fun cid off =>
      (_http_get_json_with_retries (get_text (.page cid off)) decode
        (pageUrl base_url brand_ids cid limit off title_search) retries backoff_s).result)
    ((_http_get_json_with_retries (get_text .options) decode
        (optionsUrl base_url) retries backoff_s).result)
    base_url lang category_ids all_categories limit max_games fuel

/-- The browser-driven scrape with its own retry engine plugged in:
`page_fetch r k` is the `(status, text)` payload of attempt `k` of request
`r` (source lines 1005 and 973 route requests through
`_get_json_with_retries`). -/
def scrape_games_impl (page_fetch : Req → Nat → Except String (Int × String))
    (decode : String → Except String JVal) (base_url lang : String)
    (category_ids : Option (List Int)) (all_categories : Bool)
    (brand_ids : Option (List Int)) (title_search : Option String)
    (limit max_games : Int) (retries : Nat) (backoff_s : ℚ)
    (fuel : Nat) : WalkOut (List Game × Nat) :=
  scrape_games
    (fun cid off =>
      (_get_json_with_retries (page_fetch (.page cid off)) decode
        (pageUrl base_url brand_ids cid limit off title_search) retries backoff_s).result)
    ((_get_json_with_retries (page_fetch .options) decode
        (optionsUrl base_url) retries backoff_s).result)
    base_url lang category_ids all_categories limit max_games fuel

/-- A transport in which every request succeeds with payload `j off` (the
"successful JSON responses" setting of the specification). -/
def pureFetch (j : Int → JVal) : Int → Except String JVal :=
  fun off => .ok (j off)

/-- The collection accumulated by the category loop after `k` non-empty
pages starting from `collected = c0` at offset `offset`: each step appends
the parsed page at the current offset and re-deduplicates, exactly as source
lines 936-937 do. -/
def accumFrom (j : Int → JVal) (base_url lang : String) (limit offset : Int)
    (c0 : List Game) : Nat → List Game
  | 0 => c0
  | k + 1 =>
    _dedupe (accumFrom j base_url lang limit offset c0 k ++
      _parse_games (j (offset + (k : Int) * limit)) base_url lang)

/-- All items a category can contribute: the parsed pages at offsets
`0, limit, ...` strictly before the first empty page (index `n`),
concatenated in request order. -/
def catAvailJ (j : Int → JVal) (base_url lang : String) (limit : Int) (n : Nat) : List Game :=
  ((List.range n).map (fun (m : Nat) => _parse_games (j ((m : Int) * limit)) base_url lang)).flatten

/-- All items available across a category list, in walk order, `n cid` being
the first-empty-page index of category `cid`. -/
def availAllJ (j : Option Int → Int → JVal) (base_url lang : String) (limit : Int)
    (n : Option Int → Nat) (cats : List (Option Int)) : List Game :=
  (cats.map (fun cid => catAvailJ (j cid) base_url lang limit (n cid))).flatten

/-- The accumulation pattern of the walker in isolation (source lines
936-937): fold each parsed page into the running collection and
re-deduplicate. -/
def accumPages (pages : List (List Game)) : List Game :=
  pages.foldl (fun c p => _dedupe (c ++ p)) []

/-- The set of item identities of a collection. -/
def idsOf (xs : List Game) : Finset Int :=
  (xs.map Game.id).toFinset

lemma dedupeGo_congr {s₁ s₂ : List Int} (h : ∀ i, i ∈ s₁ ↔ i ∈ s₂) :
    ∀ xs : List Game, dedupeGo s₁ xs = dedupeGo s₂ xs := by
  intro xs
  induction xs generalizing s₁ s₂ with
  | nil => rfl
  | cons g rest ih =>
    simp only [dedupeGo]
    by_cases hg : g.id ∈ s₁
    · rw [if_pos hg, if_pos ((h _).1 hg)]
      exact ih h
    · rw [if_neg hg, if_neg (fun c => hg ((h _).2 c))]
      congr 1
      refine ih (fun i => ?_)
      simp only [List.mem_cons]
      exact or_congr Iff.rfl (h i)

lemma dedupeGo_cons (s : List Int) (g : Game) (rest : List Game) :
    dedupeGo s (g :: rest) =
      if g.id ∈ s then dedupeGo s rest else g :: dedupeGo (g.id :: s) rest := rfl

lemma dedupeGo_append (s : List Int) (xs ys : List Game) :
    dedupeGo s (xs ++ ys) = dedupeGo s xs ++ dedupeGo (xs.map Game.id ++ s) ys := by
  induction xs generalizing s with
  | nil => simp [dedupeGo]
  | cons g rest ih =>
    rw [List.cons_append, dedupeGo_cons, dedupeGo_cons, List.map_cons]
    by_cases hg : g.id ∈ s
    · rw [if_pos hg, if_pos hg, ih]
      congr 1
      refine dedupeGo_congr (fun i => ?_) ys
      simp only [List.cons_append, List.mem_cons]
      constructor
      · exact fun h => Or.inr h
      · rintro (rfl | h)
        · exact List.mem_append.2 (Or.inr hg)
        · exact h
    · rw [if_neg hg, if_neg hg, ih, List.cons_append]
      congr 2
      refine dedupeGo_congr (fun i => ?_) ys
      simp only [List.cons_append, List.mem_append, List.mem_cons]
      tauto

lemma mem_map_id_dedupeGo (s : List Int) (xs : List Game) (i : Int) :
    i ∈ (dedupeGo s xs).map Game.id ↔ i ∈ xs.map Game.id ∧ i ∉ s := by
  induction xs generalizing s with
  | nil => simp [dedupeGo]
  | cons g rest ih =>
    simp only [dedupeGo]
    by_cases hg : g.id ∈ s
    · rw [if_pos hg, ih]
      simp only [List.map_cons, List.mem_cons]
      constructor
      · rintro ⟨h, hs⟩
        exact ⟨Or.inr h, hs⟩
      · rintro ⟨h | h, hs⟩
        · exact absurd (h ▸ hg) hs
        · exact ⟨h, hs⟩
    · rw [if_neg hg]
      simp only [List.map_cons, List.mem_cons, ih]
      constructor
      · rintro (rfl | ⟨h, hs⟩)
        · exact ⟨Or.inl rfl, hg⟩
        · exact ⟨Or.inr h, fun c => hs (Or.inr c)⟩
      · rintro ⟨h | h, hs⟩
        · exact Or.inl h
        · by_cases hgi : i = g.id
          · exact Or.inl hgi
          · exact Or.inr ⟨h, fun c => c.elim hgi hs⟩

lemma nodup_map_id_dedupeGo (s : List Int) (xs : List Game) :
    ((dedupeGo s xs).map Game.id).Nodup := by
  induction xs generalizing s with
  | nil => simp [dedupeGo]
  | cons g rest ih =>
    simp only [dedupeGo]
    by_cases hg : g.id ∈ s
    · rw [if_pos hg]; exact ih s
    · rw [if_neg hg]
      simp only [List.map_cons, List.nodup_cons]
      refine ⟨fun c => ?_, ih _⟩
      have := (mem_map_id_dedupeGo _ _ _).1 c
      exact this.2 (List.mem_cons_self _ _)

lemma dedupeGo_sublist (s : List Int) (xs : List Game) : (dedupeGo s xs).Sublist xs := by
  induction xs generalizing s with
  | nil => simp [dedupeGo]
  | cons g rest ih =>
    simp only [dedupeGo]
    by_cases hg : g.id ∈ s
    · rw [if_pos hg]
      exact (ih s).cons g
    · rw [if_neg hg]
      exact (ih _).cons₂ g

lemma dedupeGo_eq_self (s : List Int) (xs : List Game)
    (h1 : (xs.map Game.id).Nodup) (h2 : ∀ g ∈ xs, g.id ∉ s) : dedupeGo s xs = xs := by
  induction xs generalizing s with
  | nil => rfl
  | cons g rest ih =>
    simp only [List.map_cons, List.nodup_cons] at h1
    simp only [dedupeGo, if_neg (h2 g (List.mem_cons_self _ _))]
    congr 1
    refine ih _ h1.2 (fun x hx => ?_)
    simp only [List.mem_cons]
    rintro (h | h)
    · exact h1.1 (h ▸ List.mem_map_of_mem Game.id hx)
    · exact h2 x (List.mem_cons_of_mem _ hx) h

lemma dedupe_idem (xs : List Game) : _dedupe (_dedupe xs) = _dedupe xs := by
  unfold _dedupe
  exact dedupeGo_eq_self _ _ (nodup_map_id_dedupeGo [] xs) (by simp)

lemma dedupe_append (xs ys : List Game) :
    _dedupe (xs ++ ys) = _dedupe xs ++ dedupeGo (xs.map Game.id) ys := by
  unfold _dedupe
  rw [dedupeGo_append]
  congr 1
  exact dedupeGo_congr (by simp) ys

lemma mem_map_id_dedupe (xs : List Game) (i : Int) :
    i ∈ (_dedupe xs).map Game.id ↔ i ∈ xs.map Game.id := by
  unfold _dedupe
  rw [mem_map_id_dedupeGo]
  simp

lemma dedupe_dedupe_append (xs ys : List Game) :
    _dedupe (_dedupe xs ++ ys) = _dedupe (xs ++ ys) := by
  rw [dedupe_append, dedupe_append, dedupe_idem]
  congr 1
  refine dedupeGo_congr (fun i => ?_) ys
  exact mem_map_id_dedupe xs i

lemma find?_dedupeGo (s : List Int) (xs : List Game) (g : Game)
    (h : g ∈ dedupeGo s xs) :
    g.id ∉ s ∧ xs.find? (fun x => x.id == g.id) = some g := by
  induction xs generalizing s with
  | nil => simp [dedupeGo] at h
  | cons x rest ih =>
    simp only [dedupeGo] at h
    by_cases hx : x.id ∈ s
    · rw [if_pos hx] at h
      obtain ⟨hs, hf⟩ := ih s h
      refine ⟨hs, ?_⟩
      rw [List.find?_cons_of_neg, hf]
      simp only [beq_iff_eq]
      intro he
      exact hs (he ▸ hx)
    · rw [if_neg hx] at h
      rcases List.mem_cons.1 h with rfl | h
      · refine ⟨hx, ?_⟩
        rw [List.find?_cons_of_pos]
        simp
      · obtain ⟨hs, hf⟩ := ih _ h
        simp only [List.mem_cons, not_or] at hs
        refine ⟨hs.2, ?_⟩
        rw [List.find?_cons_of_neg, hf]
        simp only [beq_iff_eq]
        intro he
        exact hs.1 (he ▸ rfl)

lemma idsOf_append (xs ys : List Game) : idsOf (xs ++ ys) = idsOf xs ∪ idsOf ys := by
  simp [idsOf, List.toFinset_append]

lemma idsOf_dedupe (xs : List Game) : idsOf (_dedupe xs) = idsOf xs := by
  unfold idsOf
  ext i
  simp only [List.mem_toFinset]
  exact mem_map_id_dedupe xs i

lemma nodup_map_id_dedupe (xs : List Game) : ((_dedupe xs).map Game.id).Nodup :=
  nodup_map_id_dedupeGo [] xs

lemma length_dedupe_eq_card (xs : List Game) : (_dedupe xs).length = (idsOf xs).card := by
  rw [← idsOf_dedupe]
  unfold idsOf
  rw [List.toFinset_card_of_nodup (nodup_map_id_dedupe xs), List.length_map]

lemma off_step (off limit : Int) (m : Nat) :
    off + limit + (m : Int) * limit = off + ((m + 1 : Nat) : Int) * limit := by
  push_cast
  ring

lemma accumFrom_zero (j : Int → JVal) (b l : String) (limit off : Int) (c0 : List Game) :
    accumFrom j b l limit off c0 0 = c0 := rfl

lemma accumFrom_succ (j : Int → JVal) (b l : String) (limit off : Int) (c0 : List Game) (k : Nat) :
    accumFrom j b l limit off c0 (k + 1) =
      _dedupe (accumFrom j b l limit off c0 k ++ _parse_games (j (off + (k : Int) * limit)) b l) := rfl

lemma accumFrom_shift (j : Int → JVal) (b l : String) (limit off : Int) (c0 : List Game) :
    ∀ k, accumFrom j b l limit off c0 (k + 1) =
      accumFrom j b l limit (off + limit) (_dedupe (c0 ++ _parse_games (j off) b l)) k := by
  intro k
  induction k with
  | zero =>
    rw [accumFrom_succ, accumFrom_zero, accumFrom_zero]
    norm_num
  | succ k ih =>
    rw [accumFrom_succ, ih, accumFrom_succ, off_step]

lemma accumFrom_eq_dedupe (j : Int → JVal) (b l : String) (limit off : Int)
    (c0 : List Game) (h : _dedupe c0 = c0) : ∀ k,
    accumFrom j b l limit off c0 k =
      _dedupe (c0 ++ ((List.range k).map
        (fun (m : Nat) => _parse_games (j (off + (m : Int) * limit)) b l)).flatten) := by
  intro k
  induction k with
  | zero => simp [accumFrom_zero, h]
  | succ k ih =>
    rw [accumFrom_succ, ih, dedupe_dedupe_append, List.range_succ]
    simp only [List.map_append, List.map_cons, List.map_nil, List.flatten_append,
      List.flatten_cons, List.flatten_nil, List.append_nil, List.append_assoc]

lemma dedupe_of_accumFrom (j : Int → JVal) (b l : String) (limit off : Int)
    (c0 : List Game) (h : _dedupe c0 = c0) (k : Nat) :
    _dedupe (accumFrom j b l limit off c0 k) = accumFrom j b l limit off c0 k := by
  rw [accumFrom_eq_dedupe j b l limit off c0 h k, dedupe_idem]

lemma catLoop_ok_shape (j : Int → JVal) (b l : String) (limit mg : Int) :
    ∀ (fuel : Nat) (off : Int) (c0 c : List Game) (r : Nat),
    catLoop (pureFetch j) b l limit mg fuel off c0 = .ok (c, r) →
    ∃ k : Nat, k + 1 ≤ fuel ∧ c = accumFrom j b l limit off c0 k ∧
      (∀ m < k, _parse_games (j (off + (m : Int) * limit)) b l ≠ [] ∧
        _cap_reached ((accumFrom j b l limit off c0 m).length : Int) mg = false) ∧
      ((r = k ∧ _cap_reached ((accumFrom j b l limit off c0 k).length : Int) mg = true) ∨
       (r = k + 1 ∧ _cap_reached ((accumFrom j b l limit off c0 k).length : Int) mg = false ∧
        _parse_games (j (off + (k : Int) * limit)) b l = [])) := by
  intro fuel
  induction fuel with
  | zero =>
    intro off c0 c r h
    simp [catLoop] at h
  | succ fuel ih =>
    intro off c0 c r h
    simp only [catLoop, pureFetch] at h
    by_cases hcap : _cap_reached ((c0.length : Nat) : Int) mg = true
    · rw [if_pos hcap] at h
      simp only [WalkOut.ok.injEq, Prod.mk.injEq] at h
      obtain ⟨rfl, rfl⟩ := h
      exact ⟨0, by omega, (accumFrom_zero j b l limit off c0).symm,
        fun m hm => absurd hm (Nat.not_lt_zero m),
        Or.inl ⟨rfl, by rw [accumFrom_zero]; exact hcap⟩⟩
    · rw [if_neg hcap] at h
      rw [Bool.not_eq_true] at hcap
      by_cases hpe : (_parse_games (j off) b l).isEmpty = true
      · rw [if_pos hpe] at h
        simp only [WalkOut.ok.injEq, Prod.mk.injEq] at h
        obtain ⟨rfl, rfl⟩ := h
        refine ⟨0, by omega, (accumFrom_zero j b l limit off c0).symm,
          fun m hm => absurd hm (Nat.not_lt_zero m),
          Or.inr ⟨rfl, by rw [accumFrom_zero]; exact hcap, ?_⟩⟩
        rw [show off + ((0 : Nat) : Int) * limit = off by norm_num]
        exact List.isEmpty_iff.1 hpe
      · rw [if_neg hpe] at h
        cases hrec : catLoop (pureFetch j) b l limit mg fuel (off + limit)
            (_dedupe (c0 ++ _parse_games (j off) b l)) with
        | diverge => rw [hrec] at h; simp at h
        | fail e => rw [hrec] at h; simp at h
        | ok p =>
          obtain ⟨c', r'⟩ := p
          rw [hrec] at h
          simp only [WalkOut.ok.injEq, Prod.mk.injEq] at h
          obtain ⟨rfl, rfl⟩ := h
          obtain ⟨k', hk'fuel, hc, hcond, hdisj⟩ :=
            ih (off + limit) (_dedupe (c0 ++ _parse_games (j off) b l)) c' r' hrec
          refine ⟨k' + 1, by omega, ?_, ?_, ?_⟩
          · rw [accumFrom_shift]; exact hc
          · intro m hm
            cases m with
            | zero =>
              refine ⟨?_, by rw [accumFrom_zero]; exact hcap⟩
              rw [show off + ((0 : Nat) : Int) * limit = off by norm_num]
              intro he
              rw [he] at hpe
              simp at hpe
            | succ m' =>
              have hm' : m' < k' := by omega
              obtain ⟨hne, hcf⟩ := hcond m' hm'
              refine ⟨?_, ?_⟩
              · rw [← off_step]; exact hne
              · rw [accumFrom_shift]; exact hcf
          · rcases hdisj with ⟨hr, hcap'⟩ | ⟨hr, hcf, hemp⟩
            · exact Or.inl ⟨by omega, by rw [accumFrom_shift]; exact hcap'⟩
            · refine Or.inr ⟨by omega, by rw [accumFrom_shift]; exact hcf, ?_⟩
              rw [← off_step]; exact hemp

lemma cap_reached_iff (current mg : Int) :
    _cap_reached current mg = true ↔ (mg > 0 ∧ current ≥ mg) := by
  simp [_cap_reached]

lemma cap_mono {a b mg : Int} (hab : a ≤ b) (h : _cap_reached a mg = true) :
    _cap_reached b mg = true := by
  rw [cap_reached_iff] at h ⊢
  omega

lemma cap_nonpos {mg : Int} (h : mg ≤ 0) (x : Int) : _cap_reached x mg = false := by
  rw [Bool.eq_false_iff, Ne, cap_reached_iff]
  omega

lemma idsOf_flatten_range_mono (f : Nat → List Game) (k n : Nat) (h : k ≤ n) :
    idsOf ((List.range k).map f).flatten ⊆ idsOf ((List.range n).map f).flatten := by
  obtain ⟨d, rfl⟩ : ∃ d, n = k + d := ⟨n - k, by omega⟩
  rw [List.range_add, List.map_append, List.flatten_append, idsOf_append]
  exact Finset.subset_union_left

lemma catLoop_run_props (j : Int → JVal) (b l : String) (limit mg : Int) (n : Nat)
    (fuel : Nat) (c0 c : List Game) (r : Nat)
    (hn1 : _parse_games (j ((n : Int) * limit)) b l = [])
    (hn2 : ∀ m < n, _parse_games (j ((m : Int) * limit)) b l ≠ [])
    (hc0 : _dedupe c0 = c0)
    (hrun : catLoop (pureFetch j) b l limit mg fuel 0 c0 = .ok (c, r)) :
    _dedupe c = c ∧ (∃ zs, c = c0 ++ zs) ∧
      idsOf c ⊆ idsOf c0 ∪ idsOf (catAvailJ j b l limit n) ∧
      (_cap_reached (c.length : Int) mg = true ∨
        idsOf c = idsOf c0 ∪ idsOf (catAvailJ j b l limit n)) := by
  obtain ⟨k, hkf, hc, hcond, hdisj⟩ := catLoop_ok_shape j b l limit mg fuel 0 c0 c r hrun
  have hoff : (fun (m : Nat) => _parse_games (j (0 + (m : Int) * limit)) b l) =
      (fun (m : Nat) => _parse_games (j ((m : Int) * limit)) b l) := by
    funext m
    rw [zero_add]
  have hkn : k ≤ n := by
    by_contra hgt
    push_neg at hgt
    obtain ⟨hne, _⟩ := hcond n hgt
    rw [zero_add] at hne
    exact hne hn1
  have hcd : c = _dedupe (c0 ++ ((List.range k).map
      (fun (m : Nat) => _parse_games (j ((m : Int) * limit)) b l)).flatten) := by
    rw [hc, accumFrom_eq_dedupe j b l limit 0 c0 hc0 k, hoff]
  have hids : idsOf c = idsOf c0 ∪ idsOf (((List.range k).map
      (fun (m : Nat) => _parse_games (j ((m : Int) * limit)) b l)).flatten) := by
    rw [hcd, idsOf_dedupe, idsOf_append]
  refine ⟨by rw [hcd]; exact dedupe_idem _, ?_, ?_, ?_⟩
  · refine ⟨dedupeGo (c0.map Game.id) (((List.range k).map
      (fun (m : Nat) => _parse_games (j ((m : Int) * limit)) b l)).flatten), ?_⟩
    rw [hcd, dedupe_append, hc0]
  · rw [hids]
    exact Finset.union_subset_union_right (idsOf_flatten_range_mono _ k n hkn)
  · rcases hdisj with ⟨_, hcapk⟩ | ⟨_, _, hempk⟩
    · refine Or.inl ?_
      rw [hc]
      exact hcapk
    · refine Or.inr ?_
      rw [zero_add] at hempk
      have hkn' : k = n := by
        by_contra hne
        exact hn2 k (by omega) hempk
      rw [hids, hkn']
      rfl

lemma availAllJ_cons (j : Option Int → Int → JVal) (b l : String) (limit : Int)
    (n : Option Int → Nat) (cid : Option Int) (rest : List (Option Int)) :
    availAllJ j b l limit n (cid :: rest) =
      catAvailJ (j cid) b l limit (n cid) ++ availAllJ j b l limit n rest := by
  simp [availAllJ]

lemma walkCats_cons_ok (fetch : Option Int → Int → Except String JVal) (b l : String)
    (limit mg : Int) (fuel : Nat) (cid : Option Int) (rest : List (Option Int))
    (c0 c1 : List Game) (r1 : Nat)
    (h : catLoop (fetch cid) b l limit mg fuel 0 c0 = .ok (c1, r1)) :
    walkCats fetch b l limit mg fuel (cid :: rest) c0 =
      match walkCats fetch b l limit mg fuel rest c1 with
      | .diverge => .diverge
      | .fail e => .fail e
      | .ok (c2, r2) => .ok (c2, r1 + r2) := by
  simp only [walkCats, h]

lemma walkCats_run_props (j : Option Int → Int → JVal) (b l : String) (limit mg : Int)
    (n : Option Int → Nat) (fuel : Nat) :
    ∀ (cats : List (Option Int)) (c0 c : List Game) (r : Nat),
    (∀ cid ∈ cats, _parse_games (j cid ((n cid : Int) * limit)) b l = []) →
    (∀ cid ∈ cats, ∀ m < n cid, _parse_games (j cid ((m : Int) * limit)) b l ≠ []) →
    _dedupe c0 = c0 →
    walkCats (fun cid => pureFetch (j cid)) b l limit mg fuel cats c0 = .ok (c, r) →
    _dedupe c = c ∧ (∃ zs, c = c0 ++ zs) ∧
      idsOf c ⊆ idsOf c0 ∪ idsOf (availAllJ j b l limit n cats) ∧
      (_cap_reached (c.length : Int) mg = true ∨
        idsOf c = idsOf c0 ∪ idsOf (availAllJ j b l limit n cats)) := by
  intro cats
  induction cats with
  | nil =>
    intro c0 c r _ _ hc0 hrun
    simp only [walkCats, WalkOut.ok.injEq, Prod.mk.injEq] at hrun
    obtain ⟨rfl, rfl⟩ := hrun
    refine ⟨hc0, ⟨[], by simp⟩, by simp [availAllJ, idsOf], ?_⟩
    cases hcb : _cap_reached ((c0.length : Nat) : Int) mg with
    | true => exact Or.inl rfl
    | false =>
      refine Or.inr ?_
      simp [availAllJ, idsOf]
  | cons cid rest ih =>
    intro c0 c r hn1 hn2 hc0 hrun
    cases hcat : catLoop (pureFetch (j cid)) b l limit mg fuel 0 c0 with
    | diverge => simp [walkCats, hcat] at hrun
    | fail e => simp [walkCats, hcat] at hrun
    | ok p1 =>
      obtain ⟨c1, r1⟩ := p1
      rw [walkCats_cons_ok (fun cid => pureFetch (j cid)) b l limit mg fuel cid rest
        c0 c1 r1 hcat] at hrun
      cases hrest : walkCats (fun cid => pureFetch (j cid)) b l limit mg fuel rest c1 with
      | diverge => rw [hrest] at hrun; simp at hrun
      | fail e => rw [hrest] at hrun; simp at hrun
      | ok p2 =>
        obtain ⟨c2, r2⟩ := p2
        rw [hrest] at hrun
        simp only [WalkOut.ok.injEq, Prod.mk.injEq] at hrun
        obtain ⟨rfl, rfl⟩ := hrun
        obtain ⟨ha1, ⟨zs1, hb1⟩, hsub1, hdi1⟩ :=
          catLoop_run_props (j cid) b l limit mg (n cid) fuel c0 c1 r1
            (hn1 cid (List.mem_cons_self _ _)) (hn2 cid (List.mem_cons_self _ _)) hc0 hcat
        obtain ⟨ha2, ⟨zs2, hb2⟩, hsub2, hdi2⟩ :=
          ih c1 c2 r2 (fun d hd => hn1 d (List.mem_cons_of_mem _ hd))
            (fun d hd => hn2 d (List.mem_cons_of_mem _ hd)) ha1 hrest
        refine ⟨ha2, ⟨zs1 ++ zs2, by rw [hb2, hb1, List.append_assoc]⟩, ?_, ?_⟩
        · rw [availAllJ_cons, idsOf_append]
          intro i hi
          have h2 := hsub2 hi
          simp only [Finset.mem_union] at h2 ⊢
          rcases h2 with h2 | h2
          · have h1 := hsub1 h2
            simp only [Finset.mem_union] at h1
            tauto
          · tauto
        · cases hcb : _cap_reached ((c2.length : Nat) : Int) mg with
          | true => exact Or.inl rfl
          | false =>
            refine Or.inr ?_
            have hdi2' : idsOf c2 = idsOf c1 ∪ idsOf (availAllJ j b l limit n rest) := by
              rcases hdi2 with h | h
              · rw [h] at hcb
                cases hcb
              · exact h
            have hdi1' : idsOf c1 = idsOf c0 ∪ idsOf (catAvailJ (j cid) b l limit (n cid)) := by
              rcases hdi1 with h | h
              · exfalso
                have hlen : c1.length ≤ c2.length := by
                  rw [hb2]
                  simp
                have hlen' : ((c1.length : Nat) : Int) ≤ ((c2.length : Nat) : Int) := by
                  exact_mod_cast hlen
                have := cap_mono hlen' h
                rw [this] at hcb
                cases hcb
              · exact h
            rw [availAllJ_cons, idsOf_append, hdi2', hdi1', Finset.union_assoc]

lemma catLoop_unbounded (j : Int → JVal) (b l : String) (limit mg : Int) (n : Nat)
    (fuel : Nat) (c0 c : List Game) (r : Nat) (hmg : mg ≤ 0)
    (hn1 : _parse_games (j ((n : Int) * limit)) b l = [])
    (hn2 : ∀ m < n, _parse_games (j ((m : Int) * limit)) b l ≠ [])
    (hc0 : _dedupe c0 = c0)
    (hrun : catLoop (pureFetch j) b l limit mg fuel 0 c0 = .ok (c, r)) :
    c = _dedupe (c0 ++ catAvailJ j b l limit n) := by
  obtain ⟨k, _, hc, hcond, hdisj⟩ := catLoop_ok_shape j b l limit mg fuel 0 c0 c r hrun
  have hoff : (fun (m : Nat) => _parse_games (j (0 + (m : Int) * limit)) b l) =
      (fun (m : Nat) => _parse_games (j ((m : Int) * limit)) b l) := by
    funext m
    rw [zero_add]
  have hkn : k ≤ n := by
    by_contra hgt
    push_neg at hgt
    obtain ⟨hne, _⟩ := hcond n hgt
    rw [zero_add] at hne
    exact hne hn1
  rcases hdisj with ⟨_, hcapk⟩ | ⟨_, _, hempk⟩
  · rw [cap_nonpos hmg] at hcapk
    cases hcapk
  · rw [zero_add] at hempk
    have hkn' : k = n := by
      by_contra hne
      exact hn2 k (by omega) hempk
    rw [hc, accumFrom_eq_dedupe j b l limit 0 c0 hc0 k, hoff, hkn']
    rfl

lemma walkCats_unbounded (j : Option Int → Int → JVal) (b l : String) (limit mg : Int)
    (n : Option Int → Nat) (fuel : Nat) (hmg : mg ≤ 0) :
    ∀ (cats : List (Option Int)) (c0 c : List Game) (r : Nat),
    (∀ cid ∈ cats, _parse_games (j cid ((n cid : Int) * limit)) b l = []) →
    (∀ cid ∈ cats, ∀ m < n cid, _parse_games (j cid ((m : Int) * limit)) b l ≠ []) →
    _dedupe c0 = c0 →
    walkCats (fun cid => pureFetch (j cid)) b l limit mg fuel cats c0 = .ok (c, r) →
    c = _dedupe (c0 ++ availAllJ j b l limit n cats) := by
  intro cats
  induction cats with
  | nil =>
    intro c0 c r _ _ hc0 hrun
    simp only [walkCats, WalkOut.ok.injEq, Prod.mk.injEq] at hrun
    obtain ⟨rfl, rfl⟩ := hrun
    simp [availAllJ, hc0]
  | cons cid rest ih =>
    intro c0 c r hn1 hn2 hc0 hrun
    cases hcat : catLoop (pureFetch (j cid)) b l limit mg fuel 0 c0 with
    | diverge => simp [walkCats, hcat] at hrun
    | fail e => simp [walkCats, hcat] at hrun
    | ok p1 =>
      obtain ⟨c1, r1⟩ := p1
      rw [walkCats_cons_ok (fun cid => pureFetch (j cid)) b l limit mg fuel cid rest
        c0 c1 r1 hcat] at hrun
      cases hrest : walkCats (fun cid => pureFetch (j cid)) b l limit mg fuel rest c1 with
      | diverge => rw [hrest] at hrun; simp at hrun
      | fail e => rw [hrest] at hrun; simp at hrun
      | ok p2 =>
        obtain ⟨c2, r2⟩ := p2
        rw [hrest] at hrun
        simp only [WalkOut.ok.injEq, Prod.mk.injEq] at hrun
        obtain ⟨rfl, rfl⟩ := hrun
        have hc1 : c1 = _dedupe (c0 ++ catAvailJ (j cid) b l limit (n cid)) :=
          catLoop_unbounded (j cid) b l limit mg (n cid) fuel c0 c1 r1 hmg
            (hn1 cid (List.mem_cons_self _ _)) (hn2 cid (List.mem_cons_self _ _)) hc0 hcat
        have hc1d : _dedupe c1 = c1 := by
          rw [hc1, dedupe_idem]
        have hc2 : c2 = _dedupe (c1 ++ availAllJ j b l limit n rest) :=
          ih c1 c2 r2 (fun d hd => hn1 d (List.mem_cons_of_mem _ hd))
            (fun d hd => hn2 d (List.mem_cons_of_mem _ hd)) hc1d hrest
        rw [hc2, hc1, dedupe_dedupe_append, List.append_assoc, availAllJ_cons]

lemma catLoop_isOk_of_empty (j : Int → JVal) (b l : String) (limit mg : Int) :
    ∀ (n : Nat) (fuel : Nat) (off : Int) (c0 : List Game),
    _parse_games (j (off + (n : Int) * limit)) b l = [] → n < fuel →
    ∃ c r, catLoop (pureFetch j) b l limit mg fuel off c0 = .ok (c, r) := by
  intro n
  induction n with
  | zero =>
    intro fuel off c0 hemp hlt
    obtain ⟨f, rfl⟩ : ∃ f, fuel = f + 1 := ⟨fuel - 1, by omega⟩
    rw [show off + ((0 : Nat) : Int) * limit = off by norm_num] at hemp
    simp only [catLoop, pureFetch]
    by_cases hcap : _cap_reached ((c0.length : Nat) : Int) mg = true
    · rw [if_pos hcap]
      exact ⟨c0, 0, rfl⟩
    · rw [if_neg hcap, hemp]
      simp
  | succ n ih =>
    intro fuel off c0 hemp hlt
    obtain ⟨f, rfl⟩ : ∃ f, fuel = f + 1 := ⟨fuel - 1, by omega⟩
    simp only [catLoop, pureFetch]
    by_cases hcap : _cap_reached ((c0.length : Nat) : Int) mg = true
    · rw [if_pos hcap]
      exact ⟨c0, 0, rfl⟩
    · rw [if_neg hcap]
      by_cases hpe : (_parse_games (j off) b l).isEmpty = true
      · rw [if_pos hpe]
        exact ⟨c0, 1, rfl⟩
      · rw [if_neg hpe]
        have hemp' : _parse_games (j (off + limit + (n : Int) * limit)) b l = [] := by
          rw [off_step]
          exact hemp
        obtain ⟨c, r, hr⟩ := ih f (off + limit)
          (_dedupe (c0 ++ _parse_games (j off) b l)) hemp' (by omega)
        rw [hr]
        exact ⟨c, r + 1, rfl⟩

lemma le_foldr_max (lst : List Nat) : ∀ x ∈ lst, x ≤ lst.foldr max 0 := by
  induction lst with
  | nil => simp
  | cons a rest ih =>
    intro x hx
    rcases List.mem_cons.1 hx with rfl | hx
    · simp [List.foldr_cons, le_max_iff]
    · simp only [List.foldr_cons, le_max_iff]
      exact Or.inr (ih x hx)

lemma walkCats_isOk (j : Option Int → Int → JVal) (b l : String) (limit mg : Int)
    (n : Option Int → Nat) (fuel : Nat) :
    ∀ (cats : List (Option Int)) (c0 : List Game),
    (∀ cid ∈ cats, _parse_games (j cid ((n cid : Int) * limit)) b l = []) →
    (∀ cid ∈ cats, n cid < fuel) →
    ∃ c r, walkCats (fun cid => pureFetch (j cid)) b l limit mg fuel cats c0 = .ok (c, r) := by
  intro cats
  induction cats with
  | nil =>
    intro c0 _ _
    exact ⟨c0, 0, rfl⟩
  | cons cid rest ih =>
    intro c0 hemp hlt
    have hemp0 : _parse_games (j cid ((0 : Int) + (n cid : Int) * limit)) b l = [] := by
      rw [zero_add]
      exact hemp cid (List.mem_cons_self _ _)
    obtain ⟨c1, r1, h1⟩ := catLoop_isOk_of_empty (j cid) b l limit mg (n cid) fuel 0 c0
      hemp0 (hlt cid (List.mem_cons_self _ _))
    obtain ⟨c2, r2, h2⟩ := ih c1 (fun d hd => hemp d (List.mem_cons_of_mem _ hd))
      (fun d hd => hlt d (List.mem_cons_of_mem _ hd))
    refine ⟨c2, r1 + r2, ?_⟩
    rw [walkCats_cons_ok (fun cid => pureFetch (j cid)) b l limit mg fuel cid rest
      c0 c1 r1 h1, h2]

lemma foldl_dedupe (pages : List (List Game)) :
    ∀ acc, _dedupe acc = acc →
    pages.foldl (fun c p => _dedupe (c ++ p)) acc = _dedupe (acc ++ pages.flatten) := by
  induction pages with
  | nil =>
    intro acc hacc
    simp [hacc]
  | cons p rest ih =>
    intro acc hacc
    rw [List.foldl_cons, ih (_dedupe (acc ++ p)) (dedupe_idem _), dedupe_dedupe_append,
      List.append_assoc, List.flatten_cons]

lemma accumPages_eq (pages : List (List Game)) : accumPages pages = _dedupe pages.flatten := by
  rw [accumPages, foldl_dedupe pages [] rfl]
  simp

lemma dedupe_sublist (xs : List Game) : (_dedupe xs).Sublist xs :=
  dedupeGo_sublist [] xs

lemma dedupe_find? (xs : List Game) (g : Game) (h : g ∈ _dedupe xs) :
    xs.find? (fun x => x.id == g.id) = some g :=
  (find?_dedupeGo [] xs g h).2

lemma dropWhile_dropWhile (p : Char → Bool) (l : List Char) :
    List.dropWhile p (List.dropWhile p l) = List.dropWhile p l := by
  induction l with
  | nil => rfl
  | cons a l ih =>
    rw [List.dropWhile_cons]
    by_cases hp : p a = true
    · rw [if_pos hp]
      exact ih
    · rw [if_neg hp, List.dropWhile_cons, if_neg hp]

lemma rstripSlash_idem (s : String) : rstripSlash (rstripSlash s) = rstripSlash s := by
  unfold rstripSlash
  simp only [List.reverse_reverse, dropWhile_dropWhile]

lemma parse_rstrip (a : JVal) (b l : String) :
    _parse_games a (rstripSlash b) l = _parse_games a b l := by
  unfold _parse_games
  rw [rstripSlash_idem]

/-- C2 — Dedup first-seen-wins.  For every sequence of parsed pages, the
accumulated collection (folding each page into the running collection and
re-deduplicating, as the walker does) equals the first-seen-wins
deduplication of the concatenated pages; it holds each id exactly once; it
is a subsequence of the input (so insertion order of first occurrences is
preserved); every kept item is the first occurrence of its id in request
order, fields included; ids are neither lost nor invented; and folding a
further page into an already-deduplicated collection only appends, never
reorders or replaces existing entries. -/
theorem c2_dedup_first_seen_wins :
    ∀ pages : List (List Game),
      accumPages pages = _dedupe pages.flatten ∧
      ((accumPages pages).map Game.id).Nodup ∧
      (accumPages pages).Sublist pages.flatten ∧
      (∀ g ∈ accumPages pages, pages.flatten.find? (fun x => x.id == g.id) = some g) ∧
      (∀ i : Int, (∃ g ∈ pages.flatten, g.id = i) ↔ ∃ g ∈ accumPages pages, g.id = i) ∧
      (∀ xs ys : List Game, ∃ zs, _dedupe (_dedupe xs ++ ys) = _dedupe xs ++ zs) := by
  intro pages
  have hacc := accumPages_eq pages
  refine ⟨hacc, ?_, ?_, ?_, ?_, ?_⟩
  · rw [hacc]
    exact nodup_map_id_dedupe _
  · rw [hacc]
    exact dedupe_sublist _
  · intro g hg
    rw [hacc] at hg
    exact dedupe_find? _ g hg
  · intro i
    have hm := mem_map_id_dedupe pages.flatten i
    rw [hacc]
    constructor
    · intro ⟨g, hg, hgi⟩
      have : i ∈ (_dedupe pages.flatten).map Game.id :=
        hm.2 (hgi ▸ List.mem_map_of_mem Game.id hg)
      obtain ⟨g', hg', hgi'⟩ := List.mem_map.1 this
      exact ⟨g', hg', hgi'⟩
    · intro ⟨g, hg, hgi⟩
      have : i ∈ pages.flatten.map Game.id :=
        hm.1 (hgi ▸ List.mem_map_of_mem Game.id hg)
      obtain ⟨g', hg', hgi'⟩ := List.mem_map.1 this
      exact ⟨g', hg', hgi'⟩
  · intro xs ys
    refine ⟨dedupeGo (xs.map Game.id) ys, ?_⟩
    rw [dedupe_dedupe_append, dedupe_append]

/-- Witness for C2 at a concrete two-page input with an overlapping id: the
accumulated collection is the dedup of the join, and the kept copy of id 1
is the first-seen one (name "A", not "B"). -/
theorem c2_witness :
    accumPages [[(⟨1, "A", none, none, none, none, [], none, none, none, none, none, none, none⟩ : Game)],
        [(⟨1, "B", none, none, none, none, [], none, none, none, none, none, none, none⟩ : Game),
         (⟨2, "C", none, none, none, none, [], none, none, none, none, none, none, none⟩ : Game)]] =
      _dedupe [(⟨1, "A", none, none, none, none, [], none, none, none, none, none, none, none⟩ : Game),
        (⟨1, "B", none, none, none, none, [], none, none, none, none, none, none, none⟩ : Game),
        (⟨2, "C", none, none, none, none, [], none, none, none, none, none, none, none⟩ : Game)] ∧
    [[(⟨1, "A", none, none, none, none, [], none, none, none, none, none, none, none⟩ : Game)],
        [(⟨1, "B", none, none, none, none, [], none, none, none, none, none, none, none⟩ : Game),
         (⟨2, "C", none, none, none, none, [], none, none, none, none, none, none, none⟩ : Game)]].flatten.find?
      (fun x => x.id == (⟨1, "A", none, none, none, none, [], none, none, none, none, none, none, none⟩ : Game).id) =
      some (⟨1, "A", none, none, none, none, [], none, none, none, none, none, none, none⟩ : Game) :=
  ⟨(c2_dedup_first_seen_wins _).1,
   (c2_dedup_first_seen_wins _).2.2.2.1 _ (by decide)⟩

lemma mem_insertSorted (x : Int) (l : List Int) (y : Int) :
    y ∈ insertSorted x l ↔ y = x ∨ y ∈ l := by
  induction l with
  | nil => simp [insertSorted]
  | cons a l ih =>
    rw [insertSorted]
    by_cases hxa : x ≤ a
    · rw [if_pos hxa]
      simp [List.mem_cons]
    · rw [if_neg hxa]
      simp only [List.mem_cons, ih]
      tauto

lemma sorted_insertSorted (x : Int) (l : List Int) (h : l.Sorted (· ≤ ·)) :
    (insertSorted x l).Sorted (· ≤ ·) := by
  induction l with
  | nil => simp [insertSorted]
  | cons a l ih =>
    rw [insertSorted]
    rw [List.sorted_cons] at h
    by_cases hxa : x ≤ a
    · rw [if_pos hxa]
      rw [List.sorted_cons]
      refine ⟨fun b hb => ?_, List.sorted_cons.2 h⟩
      rcases List.mem_cons.1 hb with rfl | hb
      · exact hxa
      · exact le_trans hxa (h.1 b hb)
    · rw [if_neg hxa]
      rw [List.sorted_cons]
      refine ⟨fun b hb => ?_, ih h.2⟩
      rcases (mem_insertSorted x l b).1 hb with rfl | hb
      · omega
      · exact h.1 b hb

lemma nodup_insertSorted (x : Int) (l : List Int) (hx : x ∉ l) (h : l.Nodup) :
    (insertSorted x l).Nodup := by
  induction l with
  | nil => simp [insertSorted]
  | cons a l ih =>
    rw [insertSorted]
    rw [List.nodup_cons] at h
    simp only [List.mem_cons, not_or] at hx
    by_cases hxa : x ≤ a
    · rw [if_pos hxa]
      rw [List.nodup_cons, List.nodup_cons]
      exact ⟨by simp [List.mem_cons, hx.1, hx.2], h.1, h.2⟩
    · rw [if_neg hxa]
      rw [List.nodup_cons]
      refine ⟨fun c => ?_, ih hx.2 h.2⟩
      rcases (mem_insertSorted x l a).1 c with rfl | c
      · exact hx.1 rfl
      · exact h.1 c

lemma mem_insertionSort (l : List Int) (y : Int) : y ∈ insertionSort l ↔ y ∈ l := by
  induction l with
  | nil => simp [insertionSort]
  | cons a l ih =>
    rw [insertionSort, mem_insertSorted]
    simp [List.mem_cons, ih]

lemma sorted_insertionSort (l : List Int) : (insertionSort l).Sorted (· ≤ ·) := by
  induction l with
  | nil => simp [insertionSort]
  | cons a l ih => exact sorted_insertSorted a _ ih

lemma nodup_insertionSort (l : List Int) (h : l.Nodup) : (insertionSort l).Nodup := by
  induction l with
  | nil => simp [insertionSort]
  | cons a l ih =>
    rw [List.nodup_cons] at h
    rw [insertionSort]
    refine nodup_insertSorted a _ ?_ (ih h.2)
    rw [mem_insertionSort]
    exact h.1

lemma mem_removeDupIntsGo (seen : List Int) (l : List Int) (y : Int) :
    y ∈ removeDupIntsGo seen l ↔ y ∈ l ∧ y ∉ seen := by
  induction l generalizing seen with
  | nil => simp [removeDupIntsGo]
  | cons a l ih =>
    rw [removeDupIntsGo]
    by_cases ha : a ∈ seen
    · rw [if_pos ha, ih]
      simp only [List.mem_cons]
      constructor
      · rintro ⟨h, hs⟩
        exact ⟨Or.inr h, hs⟩
      · rintro ⟨rfl | h, hs⟩
        · exact absurd ha hs
        · exact ⟨h, hs⟩
    · rw [if_neg ha]
      simp only [List.mem_cons, ih, List.mem_cons, not_or]
      constructor
      · rintro (rfl | ⟨h, h1, h2⟩)
        · exact ⟨Or.inl rfl, ha⟩
        · exact ⟨Or.inr h, h2⟩
      · rintro ⟨rfl | h, hs⟩
        · exact Or.inl rfl
        · by_cases hya : y = a
          · exact Or.inl hya
          · exact Or.inr ⟨h, hya, hs⟩

lemma nodup_removeDupIntsGo (seen : List Int) (l : List Int) :
    (removeDupIntsGo seen l).Nodup := by
  induction l generalizing seen with
  | nil => simp [removeDupIntsGo]
  | cons a l ih =>
    rw [removeDupIntsGo]
    by_cases ha : a ∈ seen
    · rw [if_pos ha]
      exact ih seen
    · rw [if_neg ha]
      rw [List.nodup_cons]
      refine ⟨fun c => ?_, ih _⟩
      exact ((mem_removeDupIntsGo _ _ _).1 c).2 (List.mem_cons_self _ _)

/-- C5 — Resolve-all category filtering.  The resolved list is the sorted,
deduplicated set of exactly those integers that some dict entry of the
`subcategories` list of the options payload yields under integer coercion of the
`id`, after dropping non-positive ids and the sentinels 998 and 999; and on
the example payload of the specification the result is `[1, 5]`. -/
theorem c5_resolve_all_filtering :
    (∀ options : JVal,
      List.Sorted (· ≤ ·) (_resolve_all_ids options) ∧
      (_resolve_all_ids options).Nodup ∧
      (∀ i : Int, i ∈ _resolve_all_ids options ↔
        ∃ s ∈ subcategoriesOf options, (∃ kvs, s = JVal.obj kvs) ∧
          _to_int (pyGet s "id") = some i ∧ 0 < i ∧ i ≠ 998 ∧ i ≠ 999)) ∧
    _resolve_all_ids (.obj [("subcategories", .arr [.obj [("id", .int 1)],
      .obj [("id", .int 998)], .obj [("id", .int 999)], .obj [("id", .int 5)],
      .obj [("id", .int (-1))], .obj [("id", .str "x")]])]) = [1, 5] := by
  constructor
  · intro options
    refine ⟨sorted_insertionSort _, nodup_insertionSort _ (nodup_removeDupIntsGo _ _), fun i => ?_⟩
    rw [_resolve_all_ids, mem_insertionSort, mem_removeDupIntsGo]
    simp only [List.not_mem_nil, not_false_iff, and_true]
    rw [List.mem_filterMap]
    constructor
    · rintro ⟨s, hs, hv⟩
      match s, hv with
      | .obj kvs, hv =>
        rcases hto : _to_int (pyGet (.obj kvs) "id") with _ | cid
        · simp only [validCatId, hto] at hv
          cases hv
        · simp only [validCatId, hto] at hv
          by_cases hok : cid > 0 ∧ cid ≠ 998 ∧ cid ≠ 999
          · rw [if_pos hok] at hv
            cases hv
            exact ⟨.obj kvs, hs, ⟨kvs, rfl⟩, hto, hok.1, hok.2.1, hok.2.2⟩
          · rw [if_neg hok] at hv
            cases hv
    · rintro ⟨s, hs, ⟨kvs, rfl⟩, hto, hpos, h998, h999⟩
      refine ⟨.obj kvs, hs, ?_⟩
      simp only [validCatId, hto]
      rw [if_pos ⟨hpos, h998, h999⟩]
  · decide

/-- Witness for C5: the general characterization applied to the example
payload, at the member 5. -/
theorem c5_witness :
    5 ∈ _resolve_all_ids (.obj [("subcategories", .arr [.obj [("id", .int 1)],
      .obj [("id", .int 998)], .obj [("id", .int 999)], .obj [("id", .int 5)],
      .obj [("id", .int (-1))], .obj [("id", .str "x")]])]) ↔
    ∃ s ∈ subcategoriesOf (.obj [("subcategories", .arr [.obj [("id", .int 1)],
      .obj [("id", .int 998)], .obj [("id", .int 999)], .obj [("id", .int 5)],
      .obj [("id", .int (-1))], .obj [("id", .str "x")]])]),
      (∃ kvs, s = JVal.obj kvs) ∧ _to_int (pyGet s "id") = some 5 ∧
        (0 : Int) < 5 ∧ (5 : Int) ≠ 998 ∧ (5 : Int) ≠ 999 :=
  (c5_resolve_all_filtering.1 _).2.2 5

/-- C9 — Walk finiteness.  Under the precondition that every requested
category eventually yields a parsed-empty page (at some multiple of the
page limit, the offsets the walker visits), the pagination walk over
successful responses terminates: some fuel bound suffices for the
fuel-indexed walker to return an ordered, finite collection, for every cap
and every starting point. -/
theorem c9_walk_finiteness (j : Option Int → Int → JVal) (b l : String)
    (limit mg : Int) (cats : List (Option Int)) (n : Option Int → Nat)
    (hempty : ∀ cid ∈ cats, _parse_games (j cid ((n cid : Int) * limit)) b l = []) :
    ∃ (fuel : Nat) (c : List Game) (r : Nat),
      walkCats (fun cid => pureFetch (j cid)) b l limit mg fuel cats [] = .ok (c, r) := by
  obtain ⟨c, r, h⟩ := walkCats_isOk j b l limit mg n ((cats.map n).foldr max 0 + 1) cats []
    hempty (fun cid hc => by
      have := le_foldr_max (cats.map n) (n cid) (List.mem_map_of_mem n hc)
      omega)
  exact ⟨(cats.map n).foldr max 0 + 1, c, r, h⟩

/-- Witness for C9: a model whose every page parses empty terminates at once. -/
theorem c9_witness :
    ∃ (fuel : Nat) (c : List Game) (r : Nat),
      walkCats (fun cid => pureFetch ((fun _ _ => JVal.obj []) cid)) "b" "en" 50 0 fuel
        [some 1, none] [] = .ok (c, r) :=
  c9_walk_finiteness (fun _ _ => JVal.obj []) "b" "en" 50 0 [some 1, none]
    (fun _ => 0) (fun _ _ => rfl)

/-- C3 — Termination on empty page.  With the cap unbounded, a category
whose pages at offsets `0`, `limit`, `2 * limit` parse to `k` items, `k`
items and zero items (all ids distinct, `k > 0`) makes the walker issue
exactly 3 page requests — none after the empty page — and contribute
exactly `2 * k` items; in particular a page with fewer than `limit` but
more than zero items (nothing relates `k` to `limit` here) does not stop
the loop, only the empty page does. -/
theorem c3_termination_on_empty_page (j : Int → JVal) (b l : String)
    (limit mg : Int) (cid : Option Int) (fuel k : Nat) (P0 P1 : List Game)
    (hmg : mg ≤ 0) (hk : 0 < k)
    (h0 : _parse_games (j 0) b l = P0) (hl0 : P0.length = k)
    (h1 : _parse_games (j limit) b l = P1) (hl1 : P1.length = k)
    (h2 : _parse_games (j (2 * limit)) b l = [])
    (hnd : ((P0 ++ P1).map Game.id).Nodup)
    (hfuel : 3 ≤ fuel) :
    walkCats (fun _ => pureFetch j) b l limit mg fuel [cid] [] = .ok (P0 ++ P1, 3) ∧
    (P0 ++ P1).length = 2 * k := by
  obtain ⟨f, rfl⟩ : ∃ f, fuel = f + 3 := ⟨fuel - 3, by omega⟩
  have hnd0 : (P0.map Game.id).Nodup := by
    rw [List.map_append] at hnd
    exact hnd.of_append_left
  have hP0 : _dedupe P0 = P0 := dedupeGo_eq_self [] P0 hnd0 (by simp)
  have hP01 : _dedupe (P0 ++ P1) = P0 ++ P1 := dedupeGo_eq_self [] _ hnd (by simp)
  have hne0 : P0 ≠ [] := by
    intro h
    rw [h] at hl0
    simp at hl0
    omega
  have hne1 : P1 ≠ [] := by
    intro h
    rw [h] at hl1
    simp at hl1
    omega
  have hcat : catLoop (pureFetch j) b l limit mg (f + 3) 0 [] = .ok (P0 ++ P1, 3) := by
    rw [catLoop]
    rw [if_neg (by rw [cap_nonpos hmg]; simp)]
    simp only [pureFetch, zero_add, h0]
    rw [if_neg (by simp [List.isEmpty_iff, hne0])]
    rw [catLoop]
    rw [if_neg (by rw [cap_nonpos hmg]; simp)]
    simp only [pureFetch, zero_add, h1]
    rw [if_neg (by simp [List.isEmpty_iff, hne1])]
    rw [catLoop]
    rw [if_neg (by rw [cap_nonpos hmg]; simp)]
    have hoff : limit + limit = 2 * limit := by ring
    simp only [pureFetch, hoff, h2]
    rw [if_pos (by simp)]
    simp only [List.nil_append, hP0, hP01]
  refine ⟨?_, ?_⟩
  · rw [walkCats_cons_ok (fun _ => pureFetch j) b l limit mg (f + 3) cid [] [] (P0 ++ P1) 3 hcat]
    simp [walkCats]
  · rw [List.length_append, hl0, hl1]
    omega

/-- Witness for C3: a concrete single-category model with pages of one item,
one item, then empty, walked with an unbounded cap: 3 requests, 2 items. -/
theorem c3_witness :
    walkCats (fun _ => pureFetch (fun off =>
        if off = 0 then JVal.obj [("games", JVal.arr [JVal.obj [("id", JVal.int 1)]])]
        else if off = 10 then JVal.obj [("games", JVal.arr [JVal.obj [("id", JVal.int 2)]])]
        else JVal.obj [])) "x" "en" 10 0 3 [none] [] =
      .ok (_parse_games (JVal.obj [("games", JVal.arr [JVal.obj [("id", JVal.int 1)]])]) "x" "en" ++
        _parse_games (JVal.obj [("games", JVal.arr [JVal.obj [("id", JVal.int 2)]])]) "x" "en", 3) ∧
    (_parse_games (JVal.obj [("games", JVal.arr [JVal.obj [("id", JVal.int 1)]])]) "x" "en" ++
      _parse_games (JVal.obj [("games", JVal.arr [JVal.obj [("id", JVal.int 2)]])]) "x" "en").length = 2 * 1 :=
  c3_termination_on_empty_page (fun off =>
      if off = 0 then JVal.obj [("games", JVal.arr [JVal.obj [("id", JVal.int 1)]])]
      else if off = 10 then JVal.obj [("games", JVal.arr [JVal.obj [("id", JVal.int 2)]])]
      else JVal.obj []) "x" "en" 10 0 none 3 1 _ _
    (by decide) (by decide) (by decide) (by decide) (by decide) (by decide) (by decide)
    (by decide) (by decide)

lemma httpRetryGo_allfail (get_text : Nat → Except String String)
    (decode : String → Except String JVal) (url : String) (retries : Nat)
    (backoff_s : ℚ) (e : Nat → String)
    (he : ∀ k, k ≤ retries → get_text k = .error (e k)) :
    ∀ (d attempt : Nat), attempt + d = retries →
    (httpRetryGo get_text decode url retries backoff_s attempt).attempts = d + 1 ∧
    (httpRetryGo get_text decode url retries backoff_s attempt).sleeps =
      (List.range d).map (fun i => backoff_s * 2 ^ (attempt + i)) ∧
    (httpRetryGo get_text decode url retries backoff_s attempt).result =
      .error (fetchFailMsg url (e retries)) := by
  intro d
  induction d with
  | zero =>
    intro attempt hat
    rw [httpRetryGo]
    simp only [he attempt (by omega)]
    rw [dif_neg (by omega)]
    subst hat
    simp
  | succ d ih =>
    intro attempt hat
    rw [httpRetryGo]
    simp only [he attempt (by omega)]
    rw [dif_pos (by omega)]
    obtain ⟨ha, hs, hr⟩ := ih (attempt + 1) (by omega)
    refine ⟨by rw [ha], ?_, hr⟩
    dsimp only
    rw [hs, List.range_succ_eq_map, List.map_cons, List.map_map]
    simp only [List.cons.injEq]
    refine ⟨by norm_num, ?_⟩
    apply List.map_congr_left
    intro a _
    simp only [Function.comp_apply]
    rw [show attempt + 1 + a = attempt + (a + 1) from by omega]

lemma pwRetryGo_allfail (page_fetch : Nat → Except String (Int × String))
    (decode : String → Except String JVal) (url : String) (retries : Nat)
    (backoff_s : ℚ) (e : Nat → String)
    (he : ∀ k, k ≤ retries → page_fetch k = .error (e k)) :
    ∀ (d attempt : Nat), attempt + d = retries →
    (pwRetryGo page_fetch decode url retries backoff_s attempt).attempts = d + 1 ∧
    (pwRetryGo page_fetch decode url retries backoff_s attempt).sleeps =
      (List.range d).map (fun i => backoff_s * 2 ^ (attempt + i)) ∧
    (pwRetryGo page_fetch decode url retries backoff_s attempt).result =
      .error (fetchFailMsg url (e retries)) := by
  intro d
  induction d with
  | zero =>
    intro attempt hat
    rw [pwRetryGo]
    simp only [he attempt (by omega)]
    rw [dif_neg (by omega)]
    subst hat
    simp
  | succ d ih =>
    intro attempt hat
    rw [pwRetryGo]
    simp only [he attempt (by omega)]
    rw [dif_pos (by omega)]
    obtain ⟨ha, hs, hr⟩ := ih (attempt + 1) (by omega)
    refine ⟨by rw [ha], ?_, hr⟩
    dsimp only
    rw [hs, List.range_succ_eq_map, List.map_cons, List.map_map]
    simp only [List.cons.injEq]
    refine ⟨by norm_num, ?_⟩
    apply List.map_congr_left
    intro a _
    simp only [Function.comp_apply]
    rw [show attempt + 1 + a = attempt + (a + 1) from by omega]

/-- C4 — Retry/backoff schedule.  For an operation that fails on every
attempt, both retry engines make exactly `retries + 1` attempts, sleep
`backoff * 2 ^ (k - 1)` before the k-th retry (equivalently `backoff * 2 ^ i`
after the failed attempt of index `i`, and never after the last attempt),
and raise the exhaustion error carrying the last cause; with `retries = 3`
and `backoff = 1/2` that is 4 attempts and sleeps `[1/2, 1, 2]` (total 7/2). -/
theorem c4_retry_backoff_schedule :
    (∀ (get_text : Nat → Except String String) (decode : String → Except String JVal)
      (url : String) (retries : Nat) (backoff_s : ℚ) (e : Nat → String),
      (∀ k, k ≤ retries → get_text k = .error (e k)) →
      (_http_get_json_with_retries get_text decode url retries backoff_s).attempts = retries + 1 ∧
      (_http_get_json_with_retries get_text decode url retries backoff_s).sleeps =
        (List.range retries).map (fun k => backoff_s * 2 ^ k) ∧
      (_http_get_json_with_retries get_text decode url retries backoff_s).result =
        .error (fetchFailMsg url (e retries))) ∧
    (∀ (page_fetch : Nat → Except String (Int × String)) (decode : String → Except String JVal)
      (url : String) (retries : Nat) (backoff_s : ℚ) (e : Nat → String),
      (∀ k, k ≤ retries → page_fetch k = .error (e k)) →
      (_get_json_with_retries page_fetch decode url retries backoff_s).attempts = retries + 1 ∧
      (_get_json_with_retries page_fetch decode url retries backoff_s).sleeps =
        (List.range retries).map (fun k => backoff_s * 2 ^ k) ∧
      (_get_json_with_retries page_fetch decode url retries backoff_s).result =
        .error (fetchFailMsg url (e retries))) ∧
    (∀ (get_text : Nat → Except String String) (decode : String → Except String JVal)
      (url : String) (e : Nat → String),
      (∀ k, k ≤ 3 → get_text k = .error (e k)) →
      (_http_get_json_with_retries get_text decode url 3 (1 / 2)).attempts = 4 ∧
      (_http_get_json_with_retries get_text decode url 3 (1 / 2)).sleeps = [1 / 2, 1, 2]) := by
  have hhttp : ∀ (get_text : Nat → Except String String) (decode : String → Except String JVal)
      (url : String) (retries : Nat) (backoff_s : ℚ) (e : Nat → String),
      (∀ k, k ≤ retries → get_text k = .error (e k)) →
      (_http_get_json_with_retries get_text decode url retries backoff_s).attempts = retries + 1 ∧
      (_http_get_json_with_retries get_text decode url retries backoff_s).sleeps =
        (List.range retries).map (fun k => backoff_s * 2 ^ k) ∧
      (_http_get_json_with_retries get_text decode url retries backoff_s).result =
        .error (fetchFailMsg url (e retries)) := by
    intro get_text decode url retries backoff_s e he
    obtain ⟨ha, hs, hr⟩ :=
      httpRetryGo_allfail get_text decode url retries backoff_s e he retries 0 (by omega)
    refine ⟨ha, ?_, hr⟩
    rw [_http_get_json_with_retries, hs]
    apply List.map_congr_left
    intro a _
    rw [zero_add]
  refine ⟨hhttp, ?_, ?_⟩
  · intro page_fetch decode url retries backoff_s e he
    obtain ⟨ha, hs, hr⟩ :=
      pwRetryGo_allfail page_fetch decode url retries backoff_s e he retries 0 (by omega)
    refine ⟨ha, ?_, hr⟩
    rw [_get_json_with_retries, hs]
    apply List.map_congr_left
    intro a _
    rw [zero_add]
  · intro get_text decode url e he
    obtain ⟨ha, hs, _⟩ := hhttp get_text decode url 3 (1 / 2) e he
    refine ⟨ha, ?_⟩
    rw [hs]
    rw [show List.range 3 = [0, 1, 2] from rfl]
    simp only [List.map_cons, List.map_nil]
    norm_num

/-- Witness for C4: a transport failing on every attempt with retries 3 and
backoff 1/2 makes 4 attempts and sleeps 1/2, 1 and 2 seconds. -/
theorem c4_witness :
    (_http_get_json_with_retries (fun _ => .error "boom") (fun _ => .ok .null)
      "u" 3 (1 / 2)).attempts = 4 ∧
    (_http_get_json_with_retries (fun _ => .error "boom") (fun _ => .ok .null)
      "u" 3 (1 / 2)).sleeps = [1 / 2, 1, 2] :=
  c4_retry_backoff_schedule.2.2 (fun _ => .error "boom") (fun _ => .ok .null)
    "u" (fun _ => "boom") (fun _ _ => rfl)

lemma walkCats_cons_fail (fetch : Option Int → Int → Except String JVal) (b l : String)
    (limit mg : Int) (fuel : Nat) (cid : Option Int) (rest : List (Option Int))
    (c0 : List Game) (e : String)
    (h : catLoop (fetch cid) b l limit mg fuel 0 c0 = .fail e) :
    walkCats fetch b l limit mg fuel (cid :: rest) c0 = .fail e := by
  simp only [walkCats, h]

/-- C7 — Fatal exhaustion.  If the options fetch fails in resolve-all mode,
the exhaustion error propagates out of the whole scrape; and if a page fetch
fails mid-walk (here: the second page of the only category, after a first
page already contributed items), the run likewise ends in that error — no
category is skipped, no truncated collection is returned, and the items
accumulated from the first page are discarded. -/
theorem c7_fatal_exhaustion :
    (∀ (fetch : Option Int → Int → Except String JVal) (b l : String)
      (cids : Option (List Int)) (limit mg : Int) (fuel : Nat) (e : String),
      scrape_games_http fetch (.error e) b l cids true limit mg fuel = .fail e) ∧
    (∀ (fetch : Option Int → Int → Except String JVal) (opts : Except String JVal)
      (b l : String) (c0 : Int) (j0 : JVal) (limit mg : Int) (fuel : Nat) (e : String),
      fetch (some c0) 0 = .ok j0 →
      _parse_games j0 b l ≠ [] →
      fetch (some c0) limit = .error e →
      _cap_reached 0 mg = false →
      _cap_reached ((_dedupe (_parse_games j0 b l)).length : Int) mg = false →
      scrape_games_http fetch opts b l (some [c0]) false limit mg (fuel + 2) = .fail e) := by
  constructor
  · intro fetch b l cids limit mg fuel e
    rfl
  · intro fetch opts b l c0 j0 limit mg fuel e hf0 hne hf1 hcap0 hcap1
    have hpr := parse_rstrip j0 b l
    have hcap0' : _cap_reached ((([] : List Game).length : Nat) : Int) mg = false := by
      simpa using hcap0
    have hcat : catLoop (fetch (some c0)) (rstripSlash b) l limit mg (fuel + 2) 0 [] =
        .fail e := by
      rw [catLoop]
      rw [if_neg (by rw [hcap0']; simp)]
      rw [hf0]
      simp only [hpr]
      rw [if_neg (by simp [List.isEmpty_iff, hne])]
      rw [catLoop]
      rw [if_neg (by
        rw [show _cap_reached ((((_dedupe ([] ++ _parse_games j0 b l)).length : Nat) : Int))
              mg = false by simpa using hcap1]
        simp)]
      rw [zero_add, hf1]
    simp only [scrape_games_http, resolveCategoryIds, if_neg (by simp : ¬false = true),
      List.map_cons, List.map_nil]
    rw [walkCats_cons_fail fetch (rstripSlash b) l limit mg (fuel + 2) (some c0) [] [] e hcat]

/-- Witness for C7: a run whose first page succeeds with one item and whose
second page fetch exhausts its retries ends in the failure, returning no
collection. -/
theorem c7_witness :
    scrape_games_http (fun _ off => if off = 0
        then .ok (JVal.obj [("games", JVal.arr [JVal.obj [("id", JVal.int 1)]])])
        else .error "exhausted")
      (.ok (JVal.obj [])) "x" "en" (some [2]) false 10 0 (0 + 2) = .fail "exhausted" :=
  c7_fatal_exhaustion.2 (fun _ off => if off = 0
        then .ok (JVal.obj [("games", JVal.arr [JVal.obj [("id", JVal.int 1)]])])
        else .error "exhausted")
    (.ok (JVal.obj [])) "x" "en" 2 (JVal.obj [("games", JVal.arr [JVal.obj [("id", JVal.int 1)]])])
    10 0 0 "exhausted" rfl (by decide) rfl (by decide) (by decide)

lemma scrape_all_obj_ids_nil (fetch : Option Int → Int → Except String JVal) (b l : String)
    (limit mg : Int) (fuel : Nat) (kvs : List (String × JVal))
    (h : _resolve_all_ids (.obj kvs) = []) :
    scrape_games_http fetch (.ok (.obj kvs)) b l none true limit mg fuel = .ok ([], 0) := by
  simp only [scrape_games_http, _get_options_http, resolveCategoryIds, if_pos rfl, h,
    List.map_nil, walkCats, finalSlice, List.take_nil, ite_self, if_true]

lemma ids_nil_of_subs_nil (options : JVal) (h : subcategoriesOf options = []) :
    _resolve_all_ids options = [] := by
  rw [_resolve_all_ids, h]
  rfl

lemma scrape_all_not_obj (fetch : Option Int → Int → Except String JVal) (b l : String)
    (limit mg : Int) (fuel : Nat) (oj : JVal) (hno : ∀ kvs, oj ≠ .obj kvs) :
    scrape_games_http fetch (.ok oj) b l none true limit mg fuel = .ok ([], 0) := by
  have hguard : _get_options_http (.ok oj) = .ok (.obj []) := by
    cases oj with
    | obj kvs => exact absurd rfl (hno kvs)
    | null => rfl
    | bool x => rfl
    | int x => rfl
    | str x => rfl
    | arr x => rfl
  simp only [scrape_games_http, hguard, resolveCategoryIds, if_pos rfl,
    ids_nil_of_subs_nil (.obj []) rfl, List.map_nil, walkCats, finalSlice,
    List.take_nil, ite_self, if_true]

/-- C10 — Degenerate options payloads in resolve-all mode.  When the options
request succeeds but the payload is not a JSON object, or has no list-valued
`subcategories` key, or its subcategory entries yield no valid positive
non-sentinel id, the resolver produces no categories, the walker issues zero
page requests, and the run returns an empty collection successfully (no
error raised). -/
theorem c10_degenerate_options :
    (∀ (fetch : Option Int → Int → Except String JVal) (b l : String)
      (limit mg : Int) (fuel : Nat) (oj : JVal), (∀ kvs, oj ≠ .obj kvs) →
      scrape_games_http fetch (.ok oj) b l none true limit mg fuel = .ok ([], 0)) ∧
    (∀ (fetch : Option Int → Int → Except String JVal) (b l : String)
      (limit mg : Int) (fuel : Nat) (oj : JVal),
      (∀ xs, jget oj "subcategories" ≠ some (.arr xs)) →
      scrape_games_http fetch (.ok oj) b l none true limit mg fuel = .ok ([], 0)) ∧
    (∀ (fetch : Option Int → Int → Except String JVal) (b l : String)
      (limit mg : Int) (fuel : Nat) (oj : JVal),
      (∀ s ∈ subcategoriesOf oj, validCatId s = none) →
      scrape_games_http fetch (.ok oj) b l none true limit mg fuel = .ok ([], 0)) := by
  refine ⟨fun fetch b l limit mg fuel oj hno => scrape_all_not_obj fetch b l limit mg fuel oj hno,
    ?_, ?_⟩
  · intro fetch b l limit mg fuel oj hsub
    cases oj with
    | obj kvs =>
      refine scrape_all_obj_ids_nil fetch b l limit mg fuel kvs (ids_nil_of_subs_nil _ ?_)
      rw [subcategoriesOf]
      cases hj : jget (JVal.obj kvs) "subcategories" with
      | none => rfl
      | some v =>
        cases v with
        | arr xs => exact absurd hj (hsub xs)
        | null => rfl
        | bool x => rfl
        | int x => rfl
        | str x => rfl
        | obj x => rfl
    | null => exact scrape_all_not_obj fetch b l limit mg fuel _ (fun kvs h => by cases h)
    | bool x => exact scrape_all_not_obj fetch b l limit mg fuel _ (fun kvs h => by cases h)
    | int x => exact scrape_all_not_obj fetch b l limit mg fuel _ (fun kvs h => by cases h)
    | str x => exact scrape_all_not_obj fetch b l limit mg fuel _ (fun kvs h => by cases h)
    | arr x => exact scrape_all_not_obj fetch b l limit mg fuel _ (fun kvs h => by cases h)
  · intro fetch b l limit mg fuel oj hval
    cases oj with
    | obj kvs =>
      refine scrape_all_obj_ids_nil fetch b l limit mg fuel kvs ?_
      rw [_resolve_all_ids, List.filterMap_eq_nil_iff.2 hval]
      rfl
    | null => exact scrape_all_not_obj fetch b l limit mg fuel _ (fun kvs h => by cases h)
    | bool x => exact scrape_all_not_obj fetch b l limit mg fuel _ (fun kvs h => by cases h)
    | int x => exact scrape_all_not_obj fetch b l limit mg fuel _ (fun kvs h => by cases h)
    | str x => exact scrape_all_not_obj fetch b l limit mg fuel _ (fun kvs h => by cases h)
    | arr x => exact scrape_all_not_obj fetch b l limit mg fuel _ (fun kvs h => by cases h)

/-- Witness for C10: an options payload whose subcategory ids are all
sentinels or invalid yields an empty, error-free run with zero requests. -/
theorem c10_witness :
    scrape_games_http (fun _ _ => .error "never fetched")
      (.ok (JVal.obj [("subcategories", JVal.arr [JVal.obj [("id", JVal.int 998)],
        JVal.obj [("id", JVal.int 999)], JVal.obj [("id", JVal.int 0)],
        JVal.obj [("id", JVal.str "x")], JVal.str "stray"])]))
      "x" "en" none true 50 1000 7 = .ok ([], 0) :=
  c10_degenerate_options.2.2 (fun _ _ => .error "never fetched")
    "x" "en" 50 1000 7
    (JVal.obj [("subcategories", JVal.arr [JVal.obj [("id", JVal.int 998)],
      JVal.obj [("id", JVal.int 999)], JVal.obj [("id", JVal.int 0)],
      JVal.obj [("id", JVal.str "x")], JVal.str "stray"])])
    (by decide)

/-- C1 — Cap exactness.  The cap predicate holds exactly when the cap is
positive and the current count has reached it (a cap of zero or less is
never reached); for a bounded run with cap `N > 0` over an upstream model
whose categories each end at their first parsed-empty page, the returned,
trimmed collection has length `min N U` where `U` is the number of distinct
item ids available in the model; and for an unbounded cap the returned
collection is exactly the first-seen deduplication of everything available,
in accumulated order. -/
theorem c1_cap_exactness :
    (∀ current cap : Int, _cap_reached current cap = true ↔ (cap > 0 ∧ current ≥ cap)) ∧
    (∀ (j : Option Int → Int → JVal) (b l : String) (limit N : Int)
      (n : Option Int → Nat) (cats : List (Option Int)) (fuel : Nat)
      (c : List Game) (r : Nat), 0 < N →
      (∀ cid ∈ cats, _parse_games (j cid ((n cid : Int) * limit)) b l = []) →
      (∀ cid ∈ cats, ∀ m < n cid, _parse_games (j cid ((m : Int) * limit)) b l ≠ []) →
      walkCats (fun cid => pureFetch (j cid)) b l limit N fuel cats [] = .ok (c, r) →
      (finalSlice N c).length =
        min N.toNat (idsOf (availAllJ j b l limit n cats)).card) ∧
    (∀ (j : Option Int → Int → JVal) (b l : String) (limit mg : Int)
      (n : Option Int → Nat) (cats : List (Option Int)) (fuel : Nat)
      (c : List Game) (r : Nat), mg ≤ 0 →
      (∀ cid ∈ cats, _parse_games (j cid ((n cid : Int) * limit)) b l = []) →
      (∀ cid ∈ cats, ∀ m < n cid, _parse_games (j cid ((m : Int) * limit)) b l ≠ []) →
      walkCats (fun cid => pureFetch (j cid)) b l limit mg fuel cats [] = .ok (c, r) →
      finalSlice mg c = _dedupe (availAllJ j b l limit n cats)) := by
  refine ⟨fun current cap => cap_reached_iff current cap, ?_, ?_⟩
  · intro j b l limit N n cats fuel c r hN h1 h2 hrun
    obtain ⟨hd, _, hsub, hdi⟩ :=
      walkCats_run_props j b l limit N n fuel cats [] c r h1 h2 rfl hrun
    have hids0 : idsOf ([] : List Game) = ∅ := rfl
    rw [hids0, Finset.empty_union] at hsub hdi
    have hlen : c.length = (idsOf c).card := by
      calc c.length = (_dedupe c).length := by rw [hd]
        _ = (idsOf c).card := length_dedupe_eq_card c
    have hU : (idsOf c).card ≤ (idsOf (availAllJ j b l limit n cats)).card :=
      Finset.card_le_card hsub
    rw [finalSlice, if_neg (by omega : ¬N ≤ 0), List.length_take]
    rcases hdi with hcap | hideq
    · rw [cap_reached_iff] at hcap
      omega
    · rw [hlen, hideq]
  · intro j b l limit mg n cats fuel c r hmg h1 h2 hrun
    have hc := walkCats_unbounded j b l limit mg n fuel hmg cats [] c r h1 h2 rfl hrun
    rw [finalSlice, if_pos hmg, hc, List.nil_append]

/-- Witness for C1: a one-category model with a single one-item page then an
empty page, capped at 5: the result length is min 5 1 = 1; and the same
model with cap 0 returns the dedup of everything available. -/
theorem c1_witness :
    (finalSlice 5 (_parse_games (JVal.obj [("games", JVal.arr [JVal.obj [("id", JVal.int 7)]])]) "x" "en")).length =
      min (5 : Int).toNat (idsOf (availAllJ (fun _ off =>
        if off = 0 then JVal.obj [("games", JVal.arr [JVal.obj [("id", JVal.int 7)]])]
        else JVal.obj []) "x" "en" 10 (fun _ => 1) [none])).card ∧
    finalSlice 0 (_parse_games (JVal.obj [("games", JVal.arr [JVal.obj [("id", JVal.int 7)]])]) "x" "en") =
      _dedupe (availAllJ (fun _ off =>
        if off = 0 then JVal.obj [("games", JVal.arr [JVal.obj [("id", JVal.int 7)]])]
        else JVal.obj []) "x" "en" 10 (fun _ => 1) [none]) :=
  ⟨c1_cap_exactness.2.1 (fun _ off =>
      if off = 0 then JVal.obj [("games", JVal.arr [JVal.obj [("id", JVal.int 7)]])]
      else JVal.obj []) "x" "en" 10 5 (fun _ => 1) [none] 2 _ 2
    (by decide) (by decide) (by decide) (by decide),
   c1_cap_exactness.2.2 (fun _ off =>
      if off = 0 then JVal.obj [("games", JVal.arr [JVal.obj [("id", JVal.int 7)]])]
      else JVal.obj []) "x" "en" 10 0 (fun _ => 1) [none] 2 _ 2
    (by decide) (by decide) (by decide) (by decide)⟩

/-- C6 counterexample.  The claim says the page URLs of a no-filter run omit the
`categoriesId` key entirely; but on the default base URL with no filters the
query string of the built URL does contain the key `categoriesId` (with an empty
value), because the walker puts an empty string — not `None` — in the
parameter dict, and `_build_api_url` only drops `None` values. -/
theorem c6_counterexample :
    "categoriesId" ∈ urlQueryKeys (pageUrl "https://melbet-tn.com" none none 50 0 none) := by
  decide

/-- C6 as amended — No-filter marker and empty-valued category parameter.
When neither an explicit category list nor all-categories is configured
(`None` or an empty explicit list), the resolver returns the single
no-filter marker; and every page request URL built by the walker then
contains `categoriesId=` with an empty value (the key is present in the
query string, not omitted). -/
theorem c6_no_filter_amended :
    (∀ options : JVal, resolveCategoryIds options none false = [none] ∧
      resolveCategoryIds options (some []) false = [none]) ∧
    (∀ (base : String) (brand : Option (List Int)) (limit off : Int) (title : Option String),
      ∃ s1 s2, pageUrl base brand none limit off title = s1 ++ "categoriesId=" ++ s2) := by
  refine ⟨fun options => ⟨rfl, rfl⟩, ?_⟩
  intro base brand limit off title
  have he2 : (quotePlus "categoriesId" ++ "=" ++ quotePlus "" : String) = "categoriesId=" := by
    decide
  rw [pageUrl, _build_api_url, pageParams]
  simp only [List.filterMap_cons, List.filterMap_nil, Option.map_some', urlencode,
    List.map_cons, List.map_nil, joinAmp, he2]
  rw [if_neg ?hne]
  case hne =>
    intro h
    have hlen := congrArg String.length h
    simp only [String.length_append, String.length_empty,
      show ("&" : String).length = 1 from by decide] at hlen
    omega
  refine ⟨rstripSlash base ++ "/web-api/tpmodels/games/1" ++ "?" ++
    (quotePlus "brandIds" ++ "=" ++ quotePlus (brandIdsParam brand) ++ "&"),
    "&" ++ (quotePlus "limit" ++ "=" ++ quotePlus (toString limit) ++ "&" ++
      (quotePlus "offset" ++ "=" ++ quotePlus (toString off) ++ "&" ++
        (quotePlus "titleSearch" ++ "=" ++ quotePlus (title.getD "") ++ "&" ++
          (quotePlus "withoutCdn" ++ "=" ++ quotePlus "true" ++ "&" ++
            (quotePlus "filterType" ++ "=" ++ quotePlus "or"))))), ?_⟩
  simp only [String.append_assoc]

/-- Witness for the amended C6 at the default base URL and filters. -/
theorem c6_witness :
    ∃ s1 s2, pageUrl "https://melbet-tn.com" none none 50 0 none =
      s1 ++ "categoriesId=" ++ s2 :=
  c6_no_filter_amended.2 "https://melbet-tn.com" none 50 0 none

lemma catLoop_eq_catLoopPW (fetch : Int → Except String JVal) (b l : String)
    (limit mg : Int) : ∀ (fuel : Nat) (off : Int) (c0 : List Game),
    catLoop fetch b l limit mg fuel off c0 = catLoopPW fetch b l limit mg fuel off c0 := by
  intro fuel
  induction fuel with
  | zero => intro off c0; rfl
  | succ fuel ih =>
    intro off c0
    simp only [catLoop, catLoopPW, ih]

lemma walkCats_eq_walkCatsPW (fetch : Option Int → Int → Except String JVal) (b l : String)
    (limit mg : Int) (fuel : Nat) : ∀ (cats : List (Option Int)) (c0 : List Game),
    walkCats fetch b l limit mg fuel cats c0 = walkCatsPW fetch b l limit mg fuel cats c0 := by
  intro cats
  induction cats with
  | nil => intro c0; rfl
  | cons cid rest ih =>
    intro c0
    simp only [walkCats, walkCatsPW, catLoop_eq_catLoopPW, ih]

lemma scrape_games_http_eq_scrape_games (fetch : Option Int → Int → Except String JVal)
    (options_fetch : Except String JVal) (b l : String) (cids : Option (List Int))
    (allc : Bool) (limit mg : Int) (fuel : Nat) :
    scrape_games_http fetch options_fetch b l cids allc limit mg fuel =
      scrape_games fetch options_fetch b l cids allc limit mg fuel := by
  simp only [scrape_games_http, scrape_games, _get_options_http, _get_options,
    walkCats_eq_walkCatsPW]

lemma httpRetry_first_ok (get_text : Nat → Except String String)
    (decode : String → Except String JVal) (url : String) (retries : Nat)
    (backoff_s : ℚ) (t : String) (v : JVal)
    (h : get_text 0 = .ok t) (ht : t ≠ "") (hd : decode t = .ok v) :
    (_http_get_json_with_retries get_text decode url retries backoff_s).result = .ok v := by
  rw [_http_get_json_with_retries, httpRetryGo]
  simp only [h, if_neg ht, hd]

lemma pwRetry_first_ok (page_fetch : Nat → Except String (Int × String))
    (decode : String → Except String JVal) (url : String) (retries : Nat)
    (backoff_s : ℚ) (t : String) (v : JVal)
    (h : page_fetch 0 = .ok (200, t)) (ht : t ≠ "") (hd : decode t = .ok v) :
    (_get_json_with_retries page_fetch decode url retries backoff_s).result = .ok v := by
  rw [_get_json_with_retries, pwRetryGo]
  simp [h, hd, ht]

/-- C8 — Transport equivalence.  Given the same run configuration and the
same successful JSON responses for every request (the HTTP transport
returning each response text and the browser transport returning it with
status 200, the shared JSON decoder accepting it), the direct-HTTP scrape
and the browser-driven scrape — each assembled from its own retry engine and
walker — return identical results. -/
theorem c8_transport_equivalence
    (get_text : Req → Nat → Except String String)
    (page_fetch : Req → Nat → Except String (Int × String))
    (decode : String → Except String JVal) (b l : String)
    (cids : Option (List Int)) (allc : Bool) (brand : Option (List Int))
    (title : Option String) (limit mg : Int) (retries : Nat) (backoff_s : ℚ)
    (fuel : Nat) (T : Req → String) (J : Req → JVal)
    (hget : ∀ rq k, get_text rq k = .ok (T rq))
    (hpf : ∀ rq k, page_fetch rq k = .ok (200, T rq))
    (hT : ∀ rq, T rq ≠ "")
    (hdec : ∀ rq, decode (T rq) = .ok (J rq)) :
    scrape_games_http_impl get_text decode b l cids allc brand title limit mg
      retries backoff_s fuel =
    scrape_games_impl page_fetch decode b l cids allc brand title limit mg
      retries backoff_s fuel := by
  rw [scrape_games_http_impl, scrape_games_impl]
  have hfe : (fun cid off =>
      (_http_get_json_with_retries (get_text (.page cid off)) decode
        (pageUrl b brand cid limit off title) retries backoff_s).result) =
      (fun cid off =>
      (_get_json_with_retries (page_fetch (.page cid off)) decode
        (pageUrl b brand cid limit off title) retries backoff_s).result) := by
    funext cid off
    rw [httpRetry_first_ok (get_text (.page cid off)) decode _ retries backoff_s
        (T (.page cid off)) (J (.page cid off)) (hget _ 0) (hT _) (hdec _),
      pwRetry_first_ok (page_fetch (.page cid off)) decode _ retries backoff_s
        (T (.page cid off)) (J (.page cid off)) (hpf _ 0) (hT _) (hdec _)]
  have hoe : (_http_get_json_with_retries (get_text .options) decode
        (optionsUrl b) retries backoff_s).result =
      (_get_json_with_retries (page_fetch .options) decode
        (optionsUrl b) retries backoff_s).result := by
    rw [httpRetry_first_ok (get_text .options) decode _ retries backoff_s
        (T .options) (J .options) (hget _ 0) (hT _) (hdec _),
      pwRetry_first_ok (page_fetch .options) decode _ retries backoff_s
        (T .options) (J .options) (hpf _ 0) (hT _) (hdec _)]
  rw [hfe, hoe]
  exact scrape_games_http_eq_scrape_games _ _ b l cids allc limit mg fuel

/-- Witness for C8: with a constant successful transport on both sides the
two scrapes agree on a concrete configuration. -/
theorem c8_witness :
    scrape_games_http_impl (fun _ _ => .ok "t") (fun _ => .ok (JVal.obj []))
      "x" "en" none false none none 10 0 3 (1 / 2) 2 =
    scrape_games_impl (fun _ _ => .ok (200, "t")) (fun _ => .ok (JVal.obj []))
      "x" "en" none false none none 10 0 3 (1 / 2) 2 := by
  have ht : ("t" : String) ≠ "" := by decide
  exact c8_transport_equivalence (fun _ _ => .ok "t") (fun _ _ => .ok (200, "t"))
    (fun _ => .ok (JVal.obj [])) "x" "en" none false none none 10 0 3 (1 / 2) 2
    (fun _ => "t") (fun _ => JVal.obj [])
    (fun _ _ => rfl) (fun _ _ => rfl) (fun _ => ht) (fun _ => rfl)
